import Mathlib

/-!
# Verification of the istio-workspace session-orchestration core

A shallow embedding of the parts of the istio-workspace repository that the
claims concern: the Deployment manipulator (`pkg/k8s/deployment.go`), the
VirtualService manipulator and the Gateway manipulator
(`pkg/istio/virtualservice.go` and the gateway file of the same package).

Go strings are modelled as lists of characters so that the source's
`strings.Split`, `strings.Join` and `strings.HasPrefix` calls become
`List.splitOn`, `List.intercalate` and `List.isPrefixOf`.  Go `nil` pointers
and `nil` maps are modelled with `Option`; a construction that would panic at
run time (nil-map write, out-of-range reslicing) is modelled by returning
`none`.  Stateful loops are translated into explicit recursion/folds that
follow the Go evaluation order, including the places where the source
iterates over a slice header captured at loop entry while the slice is
re-assigned inside the loop body.
-/

namespace Spec2Proof

/-- Go strings as lists of characters. -/
abbrev Str := List Char

/-- Character-list contents of a Lean string literal. -/
def str (s : String) : Str := s.data

/-! ## Model primitives (package `model`)

The `model` package itself is not part of the provided sources (only its
callers are); the value types below are modelled from the spec, §3
"DATA MODEL". -/

/-- Modelled from the spec: the `action` recorded in a `ResourceStatus`
ledger entry, `action∈{Located, Created, Modified}`. -/
inductive Action where
  | located
  | created
  | modified
deriving DecidableEq, Inhabited

/-- Modelled from the spec: `ResourceStatus` is the ledger entry
`{kind, name, action, success:bool, props:map}` that enables deterministic
revert (`props` is carried by the gateway mutator separately and is not a
field here). -/
structure ResourceStatus where
  kind : Str
  name : Str
  action : Action
  success : Bool
deriving DecidableEq, Inhabited

/-- Modelled from the spec: a failed status entry (`success=false`); the Go
constructor also records the error message in the props, which the claims do
not inspect. -/
def NewFailedResource (kind name : Str) (action : Action) : ResourceStatus :=
  ⟨kind, name, action, false⟩

/-- Modelled from the spec: a successful status entry (`success=true`). -/
def NewSuccessResource (kind name : Str) (action : Action) : ResourceStatus :=
  ⟨kind, name, action, true⟩

/-- Modelled from the spec: a fork strategy, "at minimum `Clone` … and
`Existing`". -/
inductive Strategy where
  | clone
  | existing
deriving DecidableEq, Inhabited

/-- Modelled from the spec: `LocatedResource{kind, name, labels}`, the
immutable snapshot appended by Locators. -/
structure LocatedResource where
  kind : Str
  name : Str
  labels : List (Str × Str)
deriving DecidableEq, Inhabited

/-- Modelled from the spec: one target to fork inside a session, with the
located targets and the resource-status ledger.  `KindName` and `Args` are
not consulted by the embedded code paths. -/
structure Ref where
  name : Str
  strategy : Strategy
  targets : List LocatedResource
  statuses : List ResourceStatus
deriving DecidableEq, Inhabited

/-- Modelled from the spec: `GetResources` filters the status ledger by
kind. -/
def Ref.getResources (r : Ref) (kind : Str) : List ResourceStatus :=
  r.statuses.filter (fun s => s.kind == kind)

/-- Modelled from the spec: `GetTargets` with a kind predicate filters the
located targets by kind. -/
def Ref.getTargetsOfKind (r : Ref) (kind : Str) : List LocatedResource :=
  r.targets.filter (fun t => t.kind == kind)

/-- Modelled from the spec: `AddResourceStatus` records a ledger entry,
replacing an entry for the same kind and name if one exists. -/
def Ref.addResourceStatus (r : Ref) (st : ResourceStatus) : Ref :=
  if r.statuses.any (fun s => s.kind == st.kind && s.name == st.name) then
    let repl := fun s => if s.kind == st.kind && s.name == st.name then st else s
    { r with statuses := r.statuses.map repl }
  else
    { r with statuses := r.statuses ++ [st] }

/-- Modelled from the spec: `RemoveResourceStatus` drops the ledger entries
with the given kind and name. -/
def Ref.removeResourceStatus (r : Ref) (kind name : Str) : Ref :=
  { r with statuses :=
      r.statuses.filter (fun s => !(s.kind == kind && s.name == name)) }

/-- Modelled from the spec: the route matcher `{type, name, value}`
(`type=header` is the primary case). -/
structure Route where
  rType : Str
  name : Str
  value : Str
deriving DecidableEq, Inhabited

/-- Modelled from the spec: `HostName.Match(fqdn)` decides whether a mesh
destination host refers to the ref's target.  The embedded code only ever
calls `Match`, so a host name is represented extensionally by its match
predicate. -/
abbrev HostName := Str → Bool

/-! ## Association-list model of Go maps -/

/-- Lookup in a Go `map[string]V` (association-list model). -/
def lookupA {β : Type} (m : List (Str × β)) (k : Str) : Option β :=
  (m.find? (fun p => p.1 == k)).map (fun p => p.2)

/-- Insertion `m[k] = v` into a non-nil Go map (association-list model):
replaces the binding if the key is present, appends otherwise. -/
def insertA {β : Type} (m : List (Str × β)) (k : Str) (v : β) : List (Str × β) :=
  if m.any (fun p => p.1 == k) then
    m.map (fun p => if p.1 == k then (k, v) else p)
  else
    m ++ [(k, v)]

/-! ## Deployment manipulator (`pkg/k8s/deployment.go`) -/

/-- `DeploymentKind` from `pkg/k8s/deployment.go`. -/
def DeploymentKind : Str := str "Deployment"

/-- Outcome of a cluster `Get`. -/
inductive GetResult where
  | found
  | notFound
  | otherErr
deriving DecidableEq, Inhabited

/-- Outcome of a cluster `Delete`. -/
inductive DeleteResult where
  | ok
  | notFound
  | otherErr
deriving DecidableEq, Inhabited

/-- Error answers the deployment manipulator can return. -/
inductive DeployErr where
  | getFailed
  | cloneFailed
  | createFailed
  | deleteFailed
deriving DecidableEq, Inhabited

/-- The cluster/engine environment a reconcile runs against.  The template
engine is an external collaborator ("pure function `(strategy, bytes,
new-version, args) → mutated-bytes`", spec §1); we only track whether it
fails and the name of the clone it produces. -/
structure K8sEnv where
  get : Str → GetResult
  getClone : Str → GetResult
  create : Str → Option DeployErr
  delete : Str → DeleteResult
  engineRun : Str → Except Unit Str

/-- `DeploymentMutator` from `pkg/k8s/deployment.go` lines 66–113.  Returns
the error answer, the updated ref, and the list of names `Create` was
invoked on. -/
def DeploymentMutator (env : K8sEnv) (ref : Ref) :
    Option DeployErr × Ref × List Str :=
  match ref.getTargetsOfKind DeploymentKind with
  | [] => (none, ref, [])
  | target :: _ =>
    match env.get target.name with
    | .notFound => (none, ref, [])
    | .otherErr => (some .getFailed, ref, [])
    | .found =>
      if ref.strategy = .existing then (none, ref, [])
      else
        match env.engineRun target.name with
        | .error _ => (some .cloneFailed, ref, [])
        | .ok cloneName =>
          match env.getClone cloneName with
          | .found => (none, ref, [])
          | _ =>
            match env.create cloneName with
            | some _ =>
              (some .createFailed,
               ref.addResourceStatus (NewFailedResource DeploymentKind cloneName .created),
               [cloneName])
            | none =>
              (none,
               ref.addResourceStatus (NewSuccessResource DeploymentKind cloneName .created),
               [cloneName])

/-- The loop of `DeploymentRevertor` (`pkg/k8s/deployment.go` lines 116–137)
over the Deployment statuses of the ref.  Returns the error answer, the
updated ref, and the list of names `Delete` was invoked on.  On a not-found
delete the source returns `nil` from inside the loop, so the remaining
statuses are not visited and no status is removed. -/
def DeploymentRevertorLoop (env : K8sEnv) :
    List ResourceStatus → Ref → Option DeployErr × Ref × List Str
  | [], ref => (none, ref, [])
  | st :: rest, ref =>
    match env.delete st.name with
    | .notFound => (none, ref, [st.name])
    | .otherErr =>
      (some .deleteFailed,
       ref.addResourceStatus (NewFailedResource DeploymentKind st.name st.action),
       [st.name])
    | .ok =>
      let ref' := ref.removeResourceStatus DeploymentKind st.name
      let res := DeploymentRevertorLoop env rest ref'
      (res.1, res.2.1, st.name :: res.2.2)

/-- `DeploymentRevertor` from `pkg/k8s/deployment.go` lines 116–137. -/
def DeploymentRevertor (env : K8sEnv) (ref : Ref) :
    Option DeployErr × Ref × List Str :=
  DeploymentRevertorLoop env (ref.getResources DeploymentKind) ref

/-! ## VirtualService data model (istio API, as used by
`pkg/istio/virtualservice.go`) -/

/-- `v1alpha3.Destination` (`Host`, `Subset`; the `Port` field is never read
by the embedded code). -/
structure Destination where
  host : Str
  subset : Str
deriving DecidableEq, Inhabited

/-- `v1alpha3.HTTPRouteDestination`: the `Destination` pointer may be nil. -/
structure HTTPRouteDestination where
  destination : Option Destination
  weight : Int
deriving DecidableEq, Inhabited

/-- `v1alpha3.StringMatch` restricted to the `Exact` branch, the only one the
source constructs. -/
structure StringMatch where
  exact : Str
deriving DecidableEq, Inhabited

/-- `v1alpha3.HTTPMatchRequest`: only the `Headers` map is touched by the
source; a nil map is `none`. -/
structure HTTPMatchRequest where
  headers : Option (List (Str × StringMatch))
deriving DecidableEq, Inhabited

/-- `v1alpha3.Headers_HeaderOperations`: the `Add` map may be nil. -/
structure HeaderOperations where
  add : Option (List (Str × Str))
deriving DecidableEq, Inhabited

/-- `v1alpha3.Headers`: the `Request` pointer may be nil (the `Response`
side is never touched by the source). -/
structure Headers where
  request : Option HeaderOperations
deriving DecidableEq, Inhabited

/-- `v1alpha3.HTTPRoute` restricted to the fields the source reads or
writes.  `redirect` only matters through its nil-ness, so it is modelled as
`Option Unit`. -/
structure HTTPRoute where
  route : List HTTPRouteDestination
  matchRules : List HTTPMatchRequest
  headers : Option Headers
  mirror : Option Destination
  redirect : Option Unit
deriving DecidableEq, Inhabited

/-- `istionetwork.VirtualService` restricted to the fields the source reads
or writes. -/
structure VirtualService where
  name : Str
  resourceVersion : Str
  labels : List (Str × Str)
  gateways : List Str
  hosts : List Str
  http : List HTTPRoute
deriving DecidableEq, Inhabited

/-- `VirtualServiceKind` from `pkg/istio/virtualservice.go`. -/
def VirtualServiceKind : Str := str "VirtualService"

/-- `LabelIkeMutated` from `pkg/istio/virtualservice.go`. -/
def LabelIkeMutated : Str := str "ike.mutated"

/-- `LabelIkeMutatedValue` from `pkg/istio/virtualservice.go`. -/
def LabelIkeMutatedValue : Str := str "true"

/-- `GatewayKind` from the gateway file of `pkg/istio`. -/
def GatewayKind : Str := str "Gateway"

/-- `LabelIkeHosts`: the `ike.hosts` annotation key (spec §6; the constant
is declared outside the provided sources). -/
def LabelIkeHosts : Str := str "ike.hosts"

/-! ## VirtualService manipulator (`pkg/istio/virtualservice.go`) -/

/-- `mutationRequired` from `pkg/istio/virtualservice.go` lines 260–272. -/
def mutationRequired (vs : VirtualService) (targetHost : HostName)
    (targetVersion : Str) : Bool :=
  vs.http.any (fun h => h.route.any (fun r =>
    match r.destination with
    | some d => targetHost d.host && (d.subset == str "" || d.subset == targetVersion)
    | none => false))

/-- `vsAlreadyMutated` from `pkg/istio/virtualservice.go` lines 274–284. -/
def vsAlreadyMutated (vs : VirtualService) (targetHost : HostName)
    (targetVersion : Str) : Bool :=
  vs.http.any (fun h => h.route.any (fun r =>
    match r.destination with
    | some d => targetHost d.host && d.subset == targetVersion
    | none => false))

/-- `connectedToGateway` from `pkg/istio/virtualservice.go` lines 286–288. -/
def connectedToGateway (vs : VirtualService) : List Str × Bool :=
  (vs.gateways, decide (0 < vs.gateways.length))

/-- The per-destination condition of `findRoutes` (`pkg/istio/virtualservice.go`
line 294). -/
def findRoutesEntry (host : HostName) (subset : Str) (r : HTTPRouteDestination) : Bool :=
  match r.destination with
  | some d => host d.host && (d.subset == str "" || d.subset == subset)
  | none => false

/-- `findRoutes` from `pkg/istio/virtualservice.go` lines 290–301: the rule
`h` is appended once per matching destination of `h`. -/
def findRoutes (vs : VirtualService) (host : HostName) (subset : Str) :
    List HTTPRoute :=
  vs.http.flatMap (fun h =>
    (h.route.filter (findRoutesEntry host subset)).map (fun _ => h))

/-- The keep-condition of `removeOtherRoutes` (`pkg/istio/virtualservice.go`
lines 305–306): the branch taken when the destination is *not* removed. -/
def keepRoute (host : HostName) (subset : Str) (r : HTTPRouteDestination) : Bool :=
  match r.destination with
  | some d => (host d.host && d.subset == subset) || (host d.host && d.subset == str "")
  | none => false

/-- The remove-while-ranging loop of `removeOtherRoutes`
(`pkg/istio/virtualservice.go` lines 304–309), modelled at Go slice-header
precision: the `range` iterates over the header captured at loop entry
(`k` iterations left, current index `i`), while `http.Route` is re-assigned
to a shorter view (`len`) of the shared backing array (`backing`).
`append(s[:i], s[i+1:]...)` shifts the elements after `i` left inside the
backing array and leaves the stale tail in place; when `i + 1` exceeds the
current length the reslice `s[i+1:]` is out of bounds and Go panics, which
is modelled by `none`. -/
def removeOtherRoutesIter (keep : HTTPRouteDestination → Bool) :
    Nat → Nat → List HTTPRouteDestination → Nat →
    Option (List HTTPRouteDestination × Nat)
  | 0, _, backing, len => some (backing, len)
  | k + 1, i, backing, len =>
    let r := backing.getD i default
    if keep r then
      removeOtherRoutesIter keep k (i + 1) backing len
    else if i + 1 ≤ len then
      let s := backing.take len
      let t := s.take i ++ s.drop (i + 1)
      removeOtherRoutesIter keep k (i + 1) (t ++ backing.drop (len - 1)) (len - 1)
    else
      none

/-- `removeOtherRoutes` from `pkg/istio/virtualservice.go` lines 303–312.
The resulting `http.Route` is the first `len` elements of the final backing
array; `none` models the run-time panic. -/
def removeOtherRoutes (http : HTTPRoute) (host : HostName) (subset : Str) :
    Option HTTPRoute :=
  (removeOtherRoutesIter (keepRoute host subset)
      http.route.length 0 http.route http.route.length).map
    (fun p => { http with route := p.1.take p.2 })

/-- `updateSubset` from `pkg/istio/virtualservice.go` lines 314–320.
`r.Destination.Subset = subset` dereferences the destination pointer, so a
nil destination is a run-time panic, modelled by `none`. -/
def updateSubset (http : HTTPRoute) (subset : Str) : Option HTTPRoute :=
  let upd : HTTPRouteDestination → Option HTTPRouteDestination := fun r =>
    match r.destination with
    | some d => some { r with destination := some { d with subset := subset } }
    | none => none
  let rts : Option (List HTTPRouteDestination) := http.route.mapM upd
  rts.map (fun l => { http with route := l })

/-- The inner `addHeader` closure of `addHeaderMatch`
(`pkg/istio/virtualservice.go` lines 323–330). -/
def addHeaderIntoMatch (m : HTTPMatchRequest) (route : Route) : HTTPMatchRequest :=
  if route.rType == str "header" then
    { m with headers := some (insertA (m.headers.getD []) route.name ⟨route.value⟩) }
  else m

/-- `addHeaderMatch` from `pkg/istio/virtualservice.go` lines 322–342. -/
def addHeaderMatch (http : HTTPRoute) (route : Route) : HTTPRoute :=
  if 0 < http.matchRules.length then
    { http with matchRules := http.matchRules.map (fun m => addHeaderIntoMatch m route) }
  else
    { http with matchRules := http.matchRules ++ [addHeaderIntoMatch ⟨none⟩ route] }

/-- `addHeaderRequest` from `pkg/istio/virtualservice.go` lines 344–360.
The source guards `http.Headers == nil` and `http.Headers.Request == nil`,
but not `Add == nil`; the final `http.Headers.Request.Add[route.Name] =
route.Value` on a nil map is a run-time panic, modelled by `none`. -/
def addHeaderRequest (http : HTTPRoute) (route : Route) : Option HTTPRoute :=
  let hs : Headers :=
    match http.headers with
    | none => { request := some { add := some [] } }
    | some hs => hs
  let req : HeaderOperations :=
    match hs.request with
    | none => { add := some [] }
    | some r => r
  match req.add with
  | none => none
  | some m =>
    let req' : HeaderOperations := { req with add := some (insertA m route.name route.value) }
    some { http with headers := some { hs with request := some req' } }

/-- `removeWeight` from `pkg/istio/virtualservice.go` lines 362–368. -/
def removeWeight (http : HTTPRoute) : HTTPRoute :=
  { http with route := http.route.map (fun r => { r with weight := 0 }) }

/-- `simplifyTargetRoute` from `pkg/istio/virtualservice.go` lines 219–228:
remove other routes, update subsets, add the header match, clear weights,
clear mirror and redirect, and prepend the rewritten rule to the target's
rule list.  `none` models the run-time panics of the two partial steps. -/
def simplifyTargetRoute (targetHTTP : HTTPRoute) (host : HostName)
    (version newVersion : Str) (route : Route) (target : VirtualService) :
    Option VirtualService :=
  (removeOtherRoutes targetHTTP host version).bind (fun h1 =>
    (updateSubset h1 newVersion).map (fun h2 =>
      let h3 := addHeaderMatch h2 route
      let h4 := removeWeight h3
      let h5 := { h4 with mirror := none, redirect := none }
      { target with http := h5 :: target.http }))

/-- `simplifyTargetRouteWithoutMatch` from `pkg/istio/virtualservice.go`
lines 209–217: as `simplifyTargetRoute` but without the header match. -/
def simplifyTargetRouteWithoutMatch (targetHTTP : HTTPRoute) (host : HostName)
    (version newVersion : Str) (target : VirtualService) :
    Option VirtualService :=
  (removeOtherRoutes targetHTTP host version).bind (fun h1 =>
    (updateSubset h1 newVersion).map (fun h2 =>
      let h4 := removeWeight h2
      let h5 := { h4 with mirror := none, redirect := none }
      { target with http := h5 :: target.http }))

/-- Errors of `mutateVirtualService`: the declared `errorRouteNotFound`, or a
run-time panic of the rewriting pipeline. -/
inductive VsError where
  | routeNotFound
  | panicked
deriving DecidableEq, Inhabited

/-- `mutateVirtualService` from `pkg/istio/virtualservice.go` lines 164–179:
find the matching rules of the (deep-copied) source; if none, fail with
`errorRouteNotFound`; otherwise rewrite and prepend each of them onto the
target copy. -/
def mutateVirtualService (host : HostName) (version newVersion : Str)
    (route : Route) (source : VirtualService) : Except VsError VirtualService :=
  let targetsHTTP := findRoutes source host version
  if targetsHTTP.length = 0 then
    .error .routeNotFound
  else
    targetsHTTP.foldlM (fun target h =>
      match simplifyTargetRoute h host version newVersion route target with
      | some t => .ok t
      | none => .error .panicked) source

/-- `getHostsFromRef` from `pkg/istio/virtualservice.go` lines 370–381: for
each gateway the route object is attached to, take the located gateway
targets of that name, split their `LabelIkeHosts` label on `,` (a Go map
read of an absent key gives `""`, and `strings.Split("", ",")` gives
`[""]`), and prefix each entry with `<sessionName>.`. -/
def getHostsFromRef (sessionName : Str) (gateways : List Str) (ref : Ref) :
    List Str :=
  gateways.flatMap (fun gateway =>
    (ref.targets.filter (fun t => t.kind == GatewayKind && t.name == gateway)).flatMap
      (fun gwTarget =>
        (((lookupA gwTarget.labels LabelIkeHosts).getD (str "")).splitOn ',').map
          (fun host => sessionName ++ str "." ++ host)))

/-- `mutateConnectedVirtualService` from `pkg/istio/virtualservice.go` lines
181–207: deep-copy, rename to `<original>-<sessionName>`, replace the hosts
with the session hosts of the connected gateways, clear the resource
version, label `ike.mutated=true`, prepend the rewritten matching rules, and
stamp every rule with an unconditional request-header add.  `none` models
the run-time panics of the rewriting steps. -/
def mutateConnectedVirtualService (sessionName : Str) (route : Route)
    (ref : Ref) (host : HostName) (version newVersion : Str)
    (source : VirtualService) : Option VirtualService :=
  let gateways := (connectedToGateway source).1
  let hosts := getHostsFromRef sessionName gateways ref
  let target0 : VirtualService :=
    { source with
        name := source.name ++ str "-" ++ sessionName
        hosts := hosts
        resourceVersion := str ""
        labels := insertA source.labels LabelIkeMutated LabelIkeMutatedValue }
  let targetsHTTP := findRoutes source host version
  (targetsHTTP.foldlM (fun target h =>
      simplifyTargetRouteWithoutMatch h host version newVersion target) target0).bind
    (fun t1 =>
      (t1.http.mapM (fun h => addHeaderRequest h route)).map
        (fun https => { t1 with http := https }))

/-- The selection condition of the in-place (second) loop of
`VirtualServiceMutator` (`pkg/istio/virtualservice.go` lines 84–87): the
loop body runs for exactly the route objects where `mutationRequired` holds
and `vsAlreadyMutated` does not — the loop performs no gateway check. -/
def pass2Selected (vss : List VirtualService) (host : HostName)
    (version newVersion : Str) : List VirtualService :=
  vss.filter (fun vs =>
    mutationRequired vs host version && !vsAlreadyMutated vs host newVersion)

/-- The body of the in-place loop of `VirtualServiceMutator`
(`pkg/istio/virtualservice.go` lines 88–107) for one selected route object:
on a `mutateVirtualService` error the loop records a failed `Modified`
status and does not call `Update`; on success it proceeds to update with the
mutated object.  `none` models a run-time panic (not caught by the error
path). -/
def pass2Step (host : HostName) (version newVersion : Str) (route : Route)
    (vs : VirtualService) : Option (ResourceStatus ⊕ VirtualService) :=
  match mutateVirtualService host version newVersion route vs with
  | .error .panicked => none
  | .error .routeNotFound =>
    some (.inl (NewFailedResource VirtualServiceKind vs.name .modified))
  | .ok mutated => some (.inr mutated)

/-! ## Gateway manipulator (the gateway file of `pkg/istio`) -/

/-- `v1alpha3.Server` restricted to the `Hosts` field, the only one the
source reads or writes. -/
structure Server where
  hosts : List Str
deriving DecidableEq, Inhabited

/-- `istionetwork.Gateway` restricted to its servers and the one annotation
key (`LabelIkeHosts`) the source reads, writes and deletes; `none` is an
absent key. -/
structure Gateway where
  servers : List Server
  ikeHostsAnn : Option Str
deriving DecidableEq, Inhabited

/-- The annotation read shared by `mutateGateway` and `revertGateway`: a
missing key reads as `""`, and only a non-empty value is split on `,`
("split on empty string return empty", source comment). -/
def parseIkeHosts (ann : Option Str) : List Str :=
  let s := ann.getD (str "")
  if s = str "" then [] else s.splitOn ','

/-- `existInList` from the gateway file of `pkg/istio`. -/
def existInList (hosts : List Str) (host : Str) : Bool :=
  hosts.any (fun eh => eh == host)

/-- `removeFromList` from the gateway file of `pkg/istio`: removes the first
occurrence. -/
def removeFromList : List Str → Str → List Str
  | [], _ => []
  | eh :: t, host => if eh == host then t else eh :: removeFromList t host

/-- The session host `ctx.Name + "." + host`. -/
def newSessionHost (sessionName host : Str) : Str :=
  sessionName ++ str "." ++ host

/-- The first inner loop of `mutateGateway` (per server): ranging over the
host-slice header captured at loop entry while appending to the hosts and
existing-hosts lists — appended elements are not themselves visited.
Arguments: scan list (the captured header), current hosts, existing hosts,
added hosts. -/
def mutateServerScan (sessionName : Str) :
    List Str → List Str → List Str → List Str → List Str × List Str × List Str
  | [], hosts, ex, added => (hosts, ex, added)
  | host :: t, hosts, ex, added =>
    let nh := newSessionHost sessionName host
    let p :=
      if !existInList ex host && !existInList ex nh then (hosts ++ [nh], ex ++ [nh])
      else (hosts, ex)
    let added' := if existInList p.2 nh then added ++ [nh] else added
    mutateServerScan sessionName t p.1 p.2 added'

/-- `strings.Join(strings.Split(existing, ".")[1:], ".")` from the second
inner loop of `mutateGateway`. -/
def baseHostOf (existing : Str) : Str :=
  List.intercalate (str ".") ((existing.splitOn '.').tail)

/-- The second (repair) inner loop of `mutateGateway`: re-add every recorded
existing host whose base host is on the server. -/
def mutateServerRepair (ex : List Str) (hosts : List Str) : List Str :=
  ex.foldl (fun hosts existing =>
    if !existInList hosts existing && existInList hosts (baseHostOf existing) then
      hosts ++ [existing]
    else hosts) hosts

/-- One server of `mutateGateway`: the scan loop then the repair loop. -/
def mutateServer (sessionName : Str) (sv : Server) (ex added : List Str) :
    Server × List Str × List Str :=
  let p := mutateServerScan sessionName sv.hosts sv.hosts ex added
  (⟨mutateServerRepair p.2.1 p.1⟩, p.2.1, p.2.2)

/-- The server loop of `mutateGateway`, threading the existing-hosts and
added-hosts lists. -/
def mutateGatewayServers (sessionName : Str) :
    List Server → List Str → List Str → List Server × List Str × List Str
  | [], ex, added => ([], ex, added)
  | sv :: rest, ex, added =>
    let p := mutateServer sessionName sv ex added
    let q := mutateGatewayServers sessionName rest p.2.1 p.2.2
    (p.1 :: q.1, q.2.1, q.2.2)

/-- `mutateGateway` from the gateway file of `pkg/istio`: parse the
`LabelIkeHosts` annotation, extend every server with the session hosts,
write the merged annotation back (unconditionally), and return the mutated
gateway together with the added hosts. -/
def mutateGateway (sessionName : Str) (gw : Gateway) : Gateway × List Str :=
  let ex0 := parseIkeHosts gw.ikeHostsAnn
  let p := mutateGatewayServers sessionName gw.servers ex0 []
  ({ servers := p.1,
     ikeHostsAnn := some (List.intercalate (str ",") p.2.1) }, p.2.2)

/-- The per-server removal loop of `revertGateway`: remove every host that
is both recorded in the existing hosts and carries the `<sessionName>.`
prefix (the source uses the index/`i--` idiom, a single left-to-right pass).
Returns the kept hosts and the removed hosts, both in scan order. -/
def revertServerScan (sessionName : Str) (ex : List Str) :
    List Str → List Str × List Str
  | [] => ([], [])
  | host :: t =>
    let p := revertServerScan sessionName ex t
    if existInList ex host && (sessionName ++ str ".").isPrefixOf host then
      (p.1, host :: p.2)
    else
      (host :: p.1, p.2)

/-- The server loop of `revertGateway`, accumulating the to-be-removed hosts
across servers. -/
def revertGatewayServers (sessionName : Str) (ex : List Str) :
    List Server → List Server × List Str
  | [] => ([], [])
  | sv :: rest =>
    let p := revertServerScan sessionName ex sv.hosts
    let q := revertGatewayServers sessionName ex rest
    (⟨p.1⟩ :: q.1, p.2 ++ q.2)

/-- `revertGateway` from the gateway file of `pkg/istio`: drop the session's
recorded hosts from every server, remove them from the recorded list, and
either delete the annotation key (empty remainder) or write the remainder
back. -/
def revertGateway (sessionName : Str) (gw : Gateway) : Gateway :=
  let ex0 := parseIkeHosts gw.ikeHostsAnn
  let p := revertGatewayServers sessionName ex0 gw.servers
  let ex1 := p.2.foldl removeFromList ex0
  if ex1 = [] then { servers := p.1, ikeHostsAnn := none }
  else { servers := p.1, ikeHostsAnn := some (List.intercalate (str ",") ex1) }

/-- A host that carries neither `s.`-session prefix nor `t.`-session prefix
(the precondition under which `mutateGateway` treats a host as an original
host rather than as a previously added session host). -/
abbrev SessFree (s t x : Str) : Prop :=
  (s ++ str ".").isPrefixOf x = false ∧ (t ++ str ".").isPrefixOf x = false

/-! ## Concrete inputs used by witnesses and counterexamples -/

/-- The host name of the `reviews` service: matches the plain name only. -/
def hostReviews : HostName := fun s => s == str "reviews"

/-- A header route matcher as in the spec's scenario 1. -/
def cRoute : Route := ⟨str "header", str "x-test", str "smoke"⟩

/-- A ref holding two cloned-Deployment ledger entries. -/
def c1ref : Ref :=
  { name := str "reviews", strategy := .clone, targets := [],
    statuses := [⟨DeploymentKind, str "ratings-demo", .created, true⟩,
                 ⟨DeploymentKind, str "reviews-demo", .created, true⟩] }

/-- A cluster whose every delete answers not-found. -/
def c1env : K8sEnv :=
  { get := fun _ => .found, getClone := fun _ => .notFound,
    create := fun _ => none, delete := fun _ => .notFound,
    engineRun := fun n => .ok n }

/-- A ref with strategy `Existing` and one located Deployment target. -/
def c9ref : Ref :=
  { name := str "ratings", strategy := .existing,
    targets := [⟨DeploymentKind, str "ratings", []⟩], statuses := [] }

/-- A healthy cluster for the `Existing`-strategy witness. -/
def c9env : K8sEnv :=
  { get := fun _ => .found, getClone := fun _ => .notFound,
    create := fun _ => none, delete := fun _ => .ok,
    engineRun := fun n => .ok n }

/-- A destination on `reviews`, subset `v1`. -/
def dRevV1 : HTTPRouteDestination := ⟨some ⟨str "reviews", str "v1"⟩, 100⟩

/-- A destination on `reviews` with empty subset. -/
def dRevEmpty : HTTPRouteDestination := ⟨some ⟨str "reviews", str ""⟩, 50⟩

/-- A destination on an unrelated host. -/
def dOther : HTTPRouteDestination := ⟨some ⟨str "other", str ""⟩, 50⟩

/-- A rule whose destination list has two consecutive non-matching entries
before a matching one. -/
def ruleNNM : HTTPRoute := ⟨[dOther, dOther, dRevEmpty], [], none, none, none⟩

/-- A rule with a single non-matching destination between matching ones. -/
def ruleMNM : HTTPRoute := ⟨[dRevV1, dOther, dRevV1], [], none, none, none⟩

/-- A plain route object holding `ruleNNM`. -/
def vsC3 : VirtualService :=
  ⟨str "reviews-vs", str "", [], [], [str "reviews"], [ruleNNM]⟩

/-- A gateway-connected route object with a rule matching `reviews`/`v1`. -/
def cvs2 : VirtualService :=
  ⟨str "reviews-vs", str "", [], [str "gw1"], [str "reviews"],
   [⟨[dRevV1], [], none, none, none⟩]⟩

/-- A route object none of whose rules targets `reviews`. -/
def vsNoMatch : VirtualService :=
  ⟨str "vs1", str "", [], [], [], [⟨[dOther], [], none, none, none⟩]⟩

/-- A rule whose `Headers` and `Headers.Request` are non-nil while the `Add`
map is nil. -/
def ruleNilAdd : HTTPRoute := ⟨[], [], some ⟨some ⟨none⟩⟩, none, none⟩

/-- A gateway-connected route object with mirror, redirect and a matching
rule, for the derived-object witness. -/
def vsGw : VirtualService :=
  ⟨str "reviews-vs", str "rv7", [], [str "gw1"], [str "bookinfo.example.com"],
   [⟨[dRevV1], [], none, some ⟨str "mirror-host", str ""⟩, some ()⟩]⟩

/-- A ref with a located gateway target carrying the `ike.hosts` label. -/
def refGw : Ref :=
  { name := str "reviews", strategy := .clone,
    targets := [⟨GatewayKind, str "gw1", [(LabelIkeHosts, str "bookinfo.example.com")]⟩],
    statuses := [] }

/-- A gateway with a comma inside a server host. -/
def gwComma : Gateway := ⟨[⟨[str "x,y"]⟩], none⟩

/-- A clean two-server gateway. -/
def gwOk : Gateway := ⟨[⟨[str "bookinfo.example.com"]⟩, ⟨[str "a", str "b"]⟩], none⟩

/-- A gateway whose server already lists both `h` and `a.h`. -/
def gwC8 : Gateway := ⟨[⟨[str "h", str "a.h"]⟩], none⟩

/-- A clean gateway with a host shared between two servers. -/
def gwC8w : Gateway := ⟨[⟨[str "h"]⟩, ⟨[str "h", str "k"]⟩], none⟩

/-- A gateway with an empty-string `ike.hosts` annotation. -/
def gwC7a : Gateway := ⟨[⟨[str "x"]⟩], some (str "")⟩

/-- A gateway whose recorded session host is the only one to revert. -/
def gwC7b : Gateway := ⟨[⟨[str "x", str "demo.x"]⟩], some (str "demo.x")⟩

/-! ## Helper lemmas -/

theorem lookupA_cons_pos {β : Type} (p : Str × β) (t : List (Str × β)) (k : Str)
    (hp : (p.1 == k) = true) : lookupA (p :: t) k = some p.2 := by
  simp [lookupA, List.find?_cons, hp]

theorem lookupA_cons_neg {β : Type} (p : Str × β) (t : List (Str × β)) (k : Str)
    (hp : (p.1 == k) = false) : lookupA (p :: t) k = lookupA t k := by
  simp [lookupA, List.find?_cons, hp]

theorem lookupA_map_replace {β : Type} (m : List (Str × β)) (k : Str) (v : β)
    (h : m.any (fun p => p.1 == k) = true) :
    lookupA (m.map (fun p => if p.1 == k then (k, v) else p)) k = some v := by
  induction m with
  | nil => simp at h
  | cons p t ih =>
    cases hp : (p.1 == k) with
    | true =>
      simp only [List.map_cons, if_pos hp]
      exact lookupA_cons_pos (k, v) _ k (by simp)
    | false =>
      simp only [List.any_cons, hp, Bool.false_or] at h
      simp only [List.map_cons, if_neg (by simp [hp] : ¬ (p.1 == k) = true)]
      rw [lookupA_cons_neg _ _ _ hp]
      exact ih h

theorem lookupA_append_self {β : Type} (m : List (Str × β)) (k : Str) (v : β)
    (h : m.any (fun p => p.1 == k) = false) :
    lookupA (m ++ [(k, v)]) k = some v := by
  induction m with
  | nil => exact lookupA_cons_pos (k, v) [] k (by simp)
  | cons p t ih =>
    simp only [List.any_cons, Bool.or_eq_false_iff] at h
    rw [List.cons_append, lookupA_cons_neg _ _ _ h.1]
    exact ih h.2

theorem lookupA_insertA {β : Type} (m : List (Str × β)) (k : Str) (v : β) :
    lookupA (insertA m k v) k = some v := by
  unfold insertA
  by_cases h : m.any (fun p => p.1 == k) = true
  · rw [if_pos h]
    exact lookupA_map_replace m k v h
  · rw [if_neg h]
    exact lookupA_append_self m k v (Bool.eq_false_iff.mpr h)

theorem mapM_option_mem {α β : Type} (f : α → Option β) :
    ∀ (l : List α) (ys : List β), l.mapM f = some ys → ∀ y ∈ ys, ∃ x ∈ l, f x = some y := by
  intro l
  induction l with
  | nil =>
    intro ys h y hy
    simp only [List.mapM_nil, Option.pure_def, Option.some.injEq] at h
    subst h
    simp at hy
  | cons a t ih =>
    intro ys h y hy
    rw [List.mapM_cons] at h
    cases hfa : f a with
    | none => rw [hfa] at h; simp at h
    | some b =>
      rw [hfa] at h
      cases hmt : t.mapM f with
      | none => rw [hmt] at h; simp at h
      | some bs =>
        rw [hmt] at h
        simp at h
        subst h
        rcases List.mem_cons.1 hy with rfl | hmem
        · exact ⟨a, List.mem_cons_self a t, hfa⟩
        · rcases ih bs hmt y hmem with ⟨x, hx, hfx⟩
          exact ⟨x, List.mem_cons_of_mem a hx, hfx⟩

/-! ## Theorems for the claims -/

/-- C1: the claim states that a not-found delete is treated as
already-reverted (success, status removed, remaining statuses still
processed).  Evaluating the embedded `DeploymentRevertor` on a ref with two
cloned-Deployment ledger entries against a cluster whose deletes answer
not-found shows what the code actually does: it returns success, leaves the
ledger untouched, and attempts only the first delete — the `return nil`
inside the loop aborts the iteration without removing any status. -/
theorem C1_deploymentRevertor_notFound_eval :
    DeploymentRevertor c1env c1ref = (none, c1ref, [str "ratings-demo"]) := by
  decide

/-- C9: for a ref with strategy `Existing` whose located Deployment target
exists in the cluster, `DeploymentMutator` returns success, performs no
`Create`, and appends no `ResourceStatus` (the returned ref is unchanged). -/
theorem C9_deploymentMutator_existing (env : K8sEnv) (ref : Ref)
    (t : LocatedResource) (rest : List LocatedResource)
    (ht : ref.getTargetsOfKind DeploymentKind = t :: rest)
    (hg : env.get t.name = .found)
    (hs : ref.strategy = .existing) :
    DeploymentMutator env ref = (none, ref, []) := by
  unfold DeploymentMutator
  rw [ht]
  simp [hg, hs]

/-- Witness for C9 at a concrete ref and cluster. -/
theorem C9_witness :
    c9ref.getTargetsOfKind DeploymentKind = ⟨DeploymentKind, str "ratings", []⟩ :: [] ∧
    c9env.get (str "ratings") = .found ∧
    c9ref.strategy = .existing ∧
    DeploymentMutator c9env c9ref = (none, c9ref, []) :=
  ⟨by decide, rfl, rfl,
   C9_deploymentMutator_existing c9env c9ref ⟨DeploymentKind, str "ratings", []⟩ []
     (by decide) rfl rfl⟩

/-- C2 (counterexample): a gateway-connected `VirtualService` *is* selected
and mutated in place by the second loop of `VirtualServiceMutator` — the
loop checks only `mutationRequired` and `vsAlreadyMutated`, not gateway
connectivity. -/
theorem C2_counterexample :
    (connectedToGateway cvs2).2 = true ∧
    cvs2 ∈ pass2Selected [cvs2] hostReviews (str "v1") (str "v1-demo") ∧
    ∃ mutated, pass2Step hostReviews (str "v1") (str "v1-demo") cRoute cvs2 =
      some (Sum.inr mutated) := by
  refine ⟨rfl, by decide, ⟨_, rfl⟩⟩

/-- C2 (amended): the in-place pass applies to exactly the route objects for
which `mutationRequired` holds and `vsAlreadyMutated` does not — gateway
connection does not exempt a route object from the in-place pass. -/
theorem C2_pass2_selection_amended (vss : List VirtualService) (host : HostName)
    (version newVersion : Str) (vs : VirtualService) :
    vs ∈ pass2Selected vss host version newVersion ↔
      vs ∈ vss ∧ mutationRequired vs host version = true ∧
        vsAlreadyMutated vs host newVersion = false := by
  simp [pass2Selected, List.mem_filter, Bool.and_eq_true, Bool.not_eq_true', and_assoc]

/-- C10 (counterexample): a rule whose `Headers` and `Headers.Request` are
non-nil while `Add` is nil reaches the nil-map write: `addHeaderRequest` is
not total on all rule shapes. -/
theorem C10_counterexample : addHeaderRequest ruleNilAdd cRoute = none := rfl

/-- C10 (amended): `addHeaderRequest` is total and maps `route.name` to
`route.value` in the request-header `Add` map for every rule except the nil
`Add`-map shape (non-nil `Headers`, non-nil `Request`, nil `Add`). -/
theorem C10_addHeaderRequest_total (http : HTTPRoute) (route : Route)
    (hsafe : ¬ ∃ hs req, http.headers = some hs ∧ hs.request = some req ∧ req.add = none) :
    ∃ http' m, addHeaderRequest http route = some http' ∧
      (∃ hs req, http'.headers = some hs ∧ hs.request = some req ∧ req.add = some m) ∧
      lookupA m route.name = some route.value := by
  cases hh : http.headers with
  | none =>
    have heq : addHeaderRequest http route =
        some { http with headers := some ⟨some ⟨some (insertA [] route.name route.value)⟩⟩ } := by
      simp [addHeaderRequest, hh]
    exact ⟨_, _, heq, ⟨_, _, rfl, rfl, rfl⟩, lookupA_insertA [] route.name route.value⟩
  | some hs =>
    cases hr : hs.request with
    | none =>
      have heq : addHeaderRequest http route =
          some { http with headers := some ⟨some ⟨some (insertA [] route.name route.value)⟩⟩ } := by
        simp [addHeaderRequest, hh, hr]
      exact ⟨_, _, heq, ⟨_, _, rfl, rfl, rfl⟩, lookupA_insertA [] route.name route.value⟩
    | some req =>
      cases ha : req.add with
      | none => exact absurd ⟨hs, req, hh, hr, ha⟩ hsafe
      | some m =>
        have heq : addHeaderRequest http route =
            some { http with headers := some ⟨some ⟨some (insertA m route.name route.value)⟩⟩ } := by
          simp [addHeaderRequest, hh, hr, ha]
        exact ⟨_, _, heq, ⟨_, _, rfl, rfl, rfl⟩, lookupA_insertA m route.name route.value⟩

/-- Witness for C10 at a concrete rule (nil `Headers`). -/
theorem C10_witness :
    (¬ ∃ hs req, ruleMNM.headers = some hs ∧ hs.request = some req ∧ req.add = none) ∧
    ∃ http' m, addHeaderRequest ruleMNM cRoute = some http' ∧
      (∃ hs req, http'.headers = some hs ∧ hs.request = some req ∧ req.add = some m) ∧
      lookupA m cRoute.name = some cRoute.value :=
  ⟨by simp [ruleMNM], C10_addHeaderRequest_total ruleMNM cRoute (by simp [ruleMNM])⟩

/-- C7: an absent or empty `ike.hosts` annotation parses as the empty set
(so `mutateGateway` behaves identically on both), and when the remaining
recorded set after `revertGateway` is empty, the annotation key is deleted
(`none`) rather than left present with an empty value. -/
theorem C7_ikeHosts_empty_handling (sessionName : Str) (gw : Gateway) :
    parseIkeHosts none = [] ∧ parseIkeHosts (some (str "")) = [] ∧
    (gw.ikeHostsAnn = some (str "") →
      mutateGateway sessionName gw =
        mutateGateway sessionName { gw with ikeHostsAnn := none }) ∧
    ((revertGatewayServers sessionName (parseIkeHosts gw.ikeHostsAnn) gw.servers).2.foldl
        removeFromList (parseIkeHosts gw.ikeHostsAnn) = [] →
      (revertGateway sessionName gw).ikeHostsAnn = none) := by
  refine ⟨rfl, rfl, ?_, ?_⟩
  · intro h
    unfold mutateGateway
    rw [h]
    rfl
  · intro h
    simp only [revertGateway]
    rw [h]
    simp

theorem findRoutes_eq_nil_iff (vs : VirtualService) (host : HostName) (version : Str) :
    findRoutes vs host version = [] ↔
      ∀ h ∈ vs.http, ∀ r ∈ h.route, findRoutesEntry host version r = false := by
  simp [findRoutes, List.flatMap_eq_nil_iff, List.map_eq_nil_iff, List.filter_eq_nil_iff]

theorem simplifyFold_ne_routeNotFound (host : HostName) (version newVersion : Str)
    (route : Route) :
    ∀ (l : List HTTPRoute) (acc : VirtualService),
      l.foldlM (fun target h =>
        match simplifyTargetRoute h host version newVersion route target with
        | some t => Except.ok t
        | none => Except.error VsError.panicked) acc ≠
        Except.error VsError.routeNotFound := by
  intro l
  induction l with
  | nil =>
    intro acc h
    rw [List.foldlM_nil] at h
    exact Except.noConfusion h
  | cons a t ih =>
    intro acc h
    rw [List.foldlM_cons] at h
    cases hs : simplifyTargetRoute a host version newVersion route acc with
    | some v =>
      rw [hs] at h
      exact ih v (by simpa using h)
    | none =>
      rw [hs] at h
      exact VsError.noConfusion (Except.error.inj h)

/-- C5: `mutateVirtualService` fails with `errorRouteNotFound` exactly when
no HTTP rule of the source has a destination matching the target host with
subset empty or equal to the current version; in that case the in-place loop
records a failed `Modified` status for the object and performs no update. -/
theorem C5_mutateVirtualService_routeNotFound (host : HostName)
    (version newVersion : Str) (route : Route) (vs : VirtualService) :
    (mutateVirtualService host version newVersion route vs =
        Except.error VsError.routeNotFound ↔
      ∀ h ∈ vs.http, ∀ r ∈ h.route, findRoutesEntry host version r = false) ∧
    ((∀ h ∈ vs.http, ∀ r ∈ h.route, findRoutesEntry host version r = false) →
      pass2Step host version newVersion route vs =
        some (Sum.inl (NewFailedResource VirtualServiceKind vs.name .modified))) := by
  have hiff := findRoutes_eq_nil_iff vs host version
  have hmain : mutateVirtualService host version newVersion route vs =
      Except.error VsError.routeNotFound ↔
      ∀ h ∈ vs.http, ∀ r ∈ h.route, findRoutesEntry host version r = false := by
    constructor
    · intro h
      by_cases hc : (findRoutes vs host version).length = 0
      · exact hiff.1 (List.length_eq_zero.1 hc)
      · exfalso
        simp only [mutateVirtualService] at h
        rw [if_neg hc] at h
        exact simplifyFold_ne_routeNotFound host version newVersion route _ _ h
    · intro hn
      simp only [mutateVirtualService]
      rw [if_pos (by simp [hiff.2 hn])]
  refine ⟨hmain, fun hn => ?_⟩
  simp only [pass2Step, hmain.2 hn]

/-- Witness for C5 at a concrete route object with no matching rule. -/
theorem C5_witness :
    (∀ h ∈ vsNoMatch.http, ∀ r ∈ h.route,
      findRoutesEntry hostReviews (str "v1") r = false) ∧
    pass2Step hostReviews (str "v1") (str "v1-demo") cRoute vsNoMatch =
      some (Sum.inl (NewFailedResource VirtualServiceKind vsNoMatch.name .modified)) :=
  ⟨by decide,
   (C5_mutateVirtualService_routeNotFound hostReviews (str "v1") (str "v1-demo")
      cRoute vsNoMatch).2 (by decide)⟩

theorem simplifyWithoutMatch_preserves (targetHTTP : HTTPRoute) (host : HostName)
    (version newVersion : Str) (target t' : VirtualService)
    (h : simplifyTargetRouteWithoutMatch targetHTTP host version newVersion target = some t') :
    t'.name = target.name ∧ t'.resourceVersion = target.resourceVersion ∧
    t'.labels = target.labels ∧ t'.hosts = target.hosts := by
  unfold simplifyTargetRouteWithoutMatch at h
  cases h1 : removeOtherRoutes targetHTTP host version with
  | none => rw [h1] at h; simp at h
  | some r1 =>
    rw [h1] at h
    simp only [Option.some_bind] at h
    cases h2 : updateSubset r1 newVersion with
    | none => rw [h2] at h; simp at h
    | some r2 =>
      rw [h2] at h
      simp only [Option.map_some', Option.some.injEq] at h
      subst h
      exact ⟨rfl, rfl, rfl, rfl⟩

theorem simplifyFoldWM_preserves (host : HostName) (version newVersion : Str) :
    ∀ (l : List HTTPRoute) (acc t1 : VirtualService),
      l.foldlM (fun target h =>
        simplifyTargetRouteWithoutMatch h host version newVersion target) acc = some t1 →
      t1.name = acc.name ∧ t1.resourceVersion = acc.resourceVersion ∧
      t1.labels = acc.labels ∧ t1.hosts = acc.hosts := by
  intro l
  induction l with
  | nil =>
    intro acc t1 h
    simp only [List.foldlM_nil, Option.pure_def, Option.some.injEq] at h
    subst h
    exact ⟨rfl, rfl, rfl, rfl⟩
  | cons a t ih =>
    intro acc t1 h
    rw [List.foldlM_cons] at h
    cases hs : simplifyTargetRouteWithoutMatch a host version newVersion acc with
    | none => rw [hs] at h; simp at h
    | some v =>
      rw [hs] at h
      have hv := simplifyWithoutMatch_preserves a host version newVersion acc v hs
      have ht := ih v t1 (by simpa using h)
      exact ⟨ht.1.trans hv.1, (ht.2.1).trans hv.2.1, (ht.2.2.1).trans hv.2.2.1,
        (ht.2.2.2).trans hv.2.2.2⟩

theorem addHeaderRequest_spec (h : HTTPRoute) (route : Route) (h' : HTTPRoute)
    (heq : addHeaderRequest h route = some h') :
    ∃ hs req m, h'.headers = some hs ∧ hs.request = some req ∧ req.add = some m ∧
      lookupA m route.name = some route.value := by
  cases hh : h.headers with
  | none =>
    have : addHeaderRequest h route =
        some { h with headers := some ⟨some ⟨some (insertA [] route.name route.value)⟩⟩ } := by
      simp [addHeaderRequest, hh]
    rw [this] at heq
    cases heq
    exact ⟨_, _, _, rfl, rfl, rfl, lookupA_insertA [] route.name route.value⟩
  | some hs =>
    cases hr : hs.request with
    | none =>
      have : addHeaderRequest h route =
          some { h with headers := some ⟨some ⟨some (insertA [] route.name route.value)⟩⟩ } := by
        simp [addHeaderRequest, hh, hr]
      rw [this] at heq
      cases heq
      exact ⟨_, _, _, rfl, rfl, rfl, lookupA_insertA [] route.name route.value⟩
    | some req =>
      cases ha : req.add with
      | none =>
        have : addHeaderRequest h route = none := by
          simp [addHeaderRequest, hh, hr, ha]
        rw [this] at heq
        cases heq
      | some m =>
        have : addHeaderRequest h route =
            some { h with headers := some ⟨some ⟨some (insertA m route.name route.value)⟩⟩ } := by
          simp [addHeaderRequest, hh, hr, ha]
        rw [this] at heq
        cases heq
        exact ⟨_, _, _, rfl, rfl, rfl, lookupA_insertA m route.name route.value⟩

theorem getHostsFromRef_shape (sessionName : Str) (gateways : List Str) (ref : Ref) :
    ∀ x ∈ getHostsFromRef sessionName gateways ref,
      ∃ base, x = sessionName ++ str "." ++ base := by
  intro x hx
  simp only [getHostsFromRef, List.mem_flatMap, List.mem_map] at hx
  rcases hx with ⟨gw, _, t, _, base, _, hbase⟩
  exact ⟨base, hbase.symm⟩

/-- C6: whenever the first mutator pass builds a derived object, that object
is named `<originalName>-<sessionName>`, has an empty resource version,
carries the `ike.mutated=true` label, has its host set replaced by the
session hosts derived from the located gateway targets' `ike.hosts` labels
(each entry `sessionName`-prefixed), and every HTTP rule of it carries the
request-header add `route.name : route.value` — regardless of matcher type
and of any existing match clauses. -/
theorem C6_mutateConnectedVirtualService (sessionName : Str) (route : Route)
    (ref : Ref) (host : HostName) (version newVersion : Str)
    (source target : VirtualService)
    (hsucc : mutateConnectedVirtualService sessionName route ref host version
        newVersion source = some target) :
    target.name = source.name ++ str "-" ++ sessionName ∧
    target.resourceVersion = str "" ∧
    lookupA target.labels LabelIkeMutated = some LabelIkeMutatedValue ∧
    target.hosts = getHostsFromRef sessionName source.gateways ref ∧
    (∀ x ∈ target.hosts, ∃ base, x = sessionName ++ str "." ++ base) ∧
    (∀ h ∈ target.http, ∃ hs req m, h.headers = some hs ∧ hs.request = some req ∧
       req.add = some m ∧ lookupA m route.name = some route.value) := by
  simp only [mutateConnectedVirtualService] at hsucc
  cases hf : (findRoutes source host version).foldlM (fun target h =>
      simplifyTargetRouteWithoutMatch h host version newVersion target)
      { source with
          name := source.name ++ str "-" ++ sessionName
          hosts := getHostsFromRef sessionName (connectedToGateway source).1 ref
          resourceVersion := str ""
          labels := insertA source.labels LabelIkeMutated LabelIkeMutatedValue } with
  | none => rw [hf] at hsucc; simp at hsucc
  | some t1 =>
    rw [hf] at hsucc
    simp only [Option.some_bind] at hsucc
    cases hm : t1.http.mapM (fun h => addHeaderRequest h route) with
    | none => rw [hm] at hsucc; simp at hsucc
    | some https =>
      rw [hm] at hsucc
      simp only [Option.map_some', Option.some.injEq] at hsucc
      subst hsucc
      have hp := simplifyFoldWM_preserves host version newVersion _ _ _ hf
      refine ⟨hp.1, hp.2.1, ?_, ?_, ?_, ?_⟩
      · rw [hp.2.2.1]
        exact lookupA_insertA source.labels LabelIkeMutated LabelIkeMutatedValue
      · exact hp.2.2.2
      · rw [hp.2.2.2]
        exact getHostsFromRef_shape sessionName source.gateways ref
      · intro h hmem
        rcases mapM_option_mem _ _ _ hm h hmem with ⟨x, _, hx⟩
        exact addHeaderRequest_spec x route h hx

/-- Witness for C6 at a concrete gateway-connected route object. -/
theorem C6_witness :
    ∃ target,
      mutateConnectedVirtualService (str "demo") cRoute refGw hostReviews
        (str "v1") (str "v1-demo") vsGw = some target ∧
      target.name = vsGw.name ++ str "-" ++ str "demo" ∧
      target.resourceVersion = str "" ∧
      lookupA target.labels LabelIkeMutated = some LabelIkeMutatedValue ∧
      target.hosts = getHostsFromRef (str "demo") vsGw.gateways refGw := by
  have h : mutateConnectedVirtualService (str "demo") cRoute refGw hostReviews
      (str "v1") (str "v1-demo") vsGw =
      some ((mutateConnectedVirtualService (str "demo") cRoute refGw hostReviews
        (str "v1") (str "v1-demo") vsGw).getD default) := by decide
  have hc := C6_mutateConnectedVirtualService (str "demo") cRoute refGw hostReviews
    (str "v1") (str "v1-demo") vsGw _ h
  exact ⟨_, h, hc.1, hc.2.1, hc.2.2.1, hc.2.2.2.1⟩

/-- Witness for C7 at concrete gateways. -/
theorem C7_witness :
    gwC7a.ikeHostsAnn = some (str "") ∧
    mutateGateway (str "s") gwC7a =
      mutateGateway (str "s") { gwC7a with ikeHostsAnn := none } ∧
    (revertGateway (str "demo") gwC7b).ikeHostsAnn = none :=
  ⟨rfl, (C7_ikeHosts_empty_handling (str "s") gwC7a).2.2.1 rfl,
   (C7_ikeHosts_empty_handling (str "demo") gwC7b).2.2.2 (by decide)⟩

/-! ## The remove-while-ranging loop of `removeOtherRoutes` (claim C3) -/

theorem removeOtherRoutesIter_advance (keep : HTTPRouteDestination → Bool) :
    ∀ (k1 k2 i : Nat) (backing : List HTTPRouteDestination) (len : Nat),
      i + k1 ≤ backing.length →
      (∀ x ∈ (backing.drop i).take k1, keep x = true) →
      removeOtherRoutesIter keep (k1 + k2) i backing len =
        removeOtherRoutesIter keep k2 (i + k1) backing len := by
  intro k1
  induction k1 with
  | zero =>
    intro k2 i backing len _ _
    simp
  | succ k1 ih =>
    intro k2 i backing len hlen hkeep
    have hi : i < backing.length := by omega
    have hr : keep (backing.getD i default) = true := by
      apply hkeep
      rw [List.drop_eq_getElem_cons hi, List.getD_eq_getElem backing default hi,
        List.take_succ_cons]
      exact List.mem_cons_self _ _
    have hkeep' : ∀ x ∈ (backing.drop (i + 1)).take k1, keep x = true := by
      intro x hx
      apply hkeep
      rw [List.drop_eq_getElem_cons hi, List.take_succ_cons]
      exact List.mem_cons_of_mem _ hx
    have hstep : k1 + 1 + k2 = (k1 + k2) + 1 := by omega
    have harith : i + 1 + k1 = i + (k1 + 1) := by omega
    rw [hstep]
    simp only [removeOtherRoutesIter]
    rw [if_pos hr, ih k2 (i + 1) backing len (by omega) hkeep', harith]

theorem filter_eq_singleton_decomp {α : Type} (p : α → Bool) :
    ∀ (l : List α) (b : α), l.filter p = [b] →
      ∃ P S, l = P ++ b :: S ∧ (∀ x ∈ P, p x = false) ∧ p b = true ∧
        (∀ x ∈ S, p x = false) := by
  intro l
  induction l with
  | nil => intro b h; simp at h
  | cons a t ih =>
    intro b h
    by_cases hp : p a = true
    · rw [List.filter_cons_of_pos hp] at h
      injection h with h1 h2
      subst h1
      refine ⟨[], t, rfl, by simp, hp, fun x hx => ?_⟩
      exact Bool.eq_false_iff.mpr (List.filter_eq_nil_iff.1 h2 x hx)
    · rw [List.filter_cons_of_neg hp] at h
      rcases ih b h with ⟨P, S, hl, h1, h2, h3⟩
      refine ⟨a :: P, S, by rw [hl, List.cons_append], fun x hx => ?_, h2, h3⟩
      rcases List.mem_cons.1 hx with rfl | hx
      · exact Bool.eq_false_iff.mpr hp
      · exact h1 x hx

theorem removeOtherRoutesIter_le_one (keep : HTTPRouteDestination → Bool)
    (route : List HTTPRouteDestination)
    (hone : (route.filter (fun r => !keep r)).length ≤ 1) :
    ∃ bk, removeOtherRoutesIter keep route.length 0 route route.length =
        some (bk, (route.filter keep).length) ∧
      bk.take (route.filter keep).length = route.filter keep := by
  rcases hf : route.filter (fun r => !keep r) with _ | ⟨b, tail⟩
  · have hall : ∀ x ∈ route, keep x = true := by
      intro x hx
      have := List.filter_eq_nil_iff.1 hf x hx
      simpa using this
    have heq : route.filter keep = route := List.filter_eq_self.2 hall
    have hadv := removeOtherRoutesIter_advance keep route.length 0 0 route route.length
      (by omega) (by intro x hx; exact hall x (List.mem_of_mem_take hx))
    refine ⟨route, ?_, by rw [heq]; exact List.take_length route⟩
    rw [heq]
    simpa using hadv
  · have htl : tail = [] := by
      rw [hf, List.length_cons] at hone
      exact List.length_eq_zero.1 (by omega)
    subst htl
    rcases filter_eq_singleton_decomp _ route b hf with ⟨P, S, rfl, hP, hb, hS⟩
    have hPk : ∀ x ∈ P, keep x = true := fun x hx => by simpa using hP x hx
    have hbk : keep b = false := by simpa using hb
    have hSk : ∀ x ∈ S, keep x = true := fun x hx => by simpa using hS x hx
    have hfk : (P ++ b :: S).filter keep = P ++ S := by
      rw [List.filter_append, List.filter_cons_of_neg (by simp [hbk]),
        List.filter_eq_self.2 hPk, List.filter_eq_self.2 hSk]
    have hn0 : (P ++ b :: S).length = P.length + (S.length + 1) := by
      simp [Nat.add_comm]
    have hadv1 := removeOtherRoutesIter_advance keep P.length (S.length + 1) 0
      (P ++ b :: S) (P ++ b :: S).length (by simp)
      (by
        intro x hx
        rw [List.drop_zero, List.take_append_of_le_length le_rfl,
          List.take_length] at hx
        exact hPk x hx)
    have hgd : (P ++ b :: S).getD P.length default = b := by
      rw [List.getD_append_right _ _ _ _ le_rfl]
      simp
    have hs1 : (P ++ b :: S).take (P ++ b :: S).length = P ++ b :: S :=
      List.take_length _
    have ht1 : (P ++ b :: S).take P.length = P :=
      List.take_append_of_le_length le_rfl |>.trans (List.take_length P)
    have ht2 : (P ++ b :: S).drop (P.length + 1) = S := by
      rw [show P ++ b :: S = (P ++ [b]) ++ S by simp, List.drop_left' (by simp)]
    have hlen1 : (P ++ b :: S).length - 1 = P.length + S.length := by
      rw [hn0]; omega
    -- trace the loop to its final state
    have trace : removeOtherRoutesIter keep (P ++ b :: S).length 0 (P ++ b :: S)
        (P ++ b :: S).length =
        some ((P ++ S) ++ (P ++ b :: S).drop (P.length + S.length),
          P.length + S.length) := by
      rw [show (P ++ b :: S).length = P.length + (S.length + 1) from hn0] at hadv1 ⊢
      rw [hadv1]
      simp only [Nat.zero_add]
      simp only [removeOtherRoutesIter]
      rw [hgd, if_neg (by simp [hbk]), if_pos (by omega)]
      rw [show P.length + (S.length + 1) = (P ++ b :: S).length from hn0.symm, hs1,
        ht1, ht2, hlen1]
      rcases List.eq_nil_or_concat S with rfl | ⟨L, e, rfl⟩
      · simp only [List.length_nil, Nat.add_zero]
        rfl
      · have heS : e ∈ L.concat e := by simp
        have hSlen : (L.concat e).length = L.length + 1 := by simp
        have hD : (P ++ b :: L.concat e).drop (P.length + (L.concat e).length) = [e] := by
          rw [show P ++ b :: L.concat e = (P ++ b :: L) ++ [e] by simp,
            List.drop_left' (by simp [hSlen])]
        have hdropback :
            (((P ++ L.concat e) ++ (P ++ b :: L.concat e).drop
              (P.length + (L.concat e).length))).drop (P.length + 1) =
            ((L.concat e) ++ [e]).drop 1 := by
          rw [hD, List.append_assoc, ← List.drop_drop, List.drop_left' rfl]
        have hadv2 := removeOtherRoutesIter_advance keep (L.concat e).length 0
          (P.length + 1)
          ((P ++ L.concat e) ++ (P ++ b :: L.concat e).drop
            (P.length + (L.concat e).length))
          (P.length + (L.concat e).length)
          (by simp [hD, hSlen]; omega)
          (by
            intro x hx
            rw [hdropback] at hx
            have hx2 := List.mem_of_mem_drop (List.mem_of_mem_take hx)
            rcases List.mem_append.1 hx2 with hx3 | hx3
            · exact hSk x hx3
            · rcases List.mem_singleton.1 hx3 with rfl
              exact hSk x heS)
        rw [Nat.add_zero] at hadv2
        rw [hadv2]
        rfl
    refine ⟨(P ++ S) ++ (P ++ b :: S).drop (P.length + S.length), ?_, ?_⟩
    · rw [trace, hfk, List.length_append]
    · rw [hfk, List.length_append, ← List.length_append P S,
        List.take_append_of_le_length le_rfl, List.take_length]

theorem removeOtherRoutes_of_le_one_miss (http : HTTPRoute) (host : HostName)
    (subset : Str)
    (hone : (http.route.filter (fun r => !keepRoute host subset r)).length ≤ 1) :
    removeOtherRoutes http host subset =
      some { http with route := http.route.filter (keepRoute host subset) } := by
  rcases removeOtherRoutesIter_le_one (keepRoute host subset) http.route hone with
    ⟨bk, hiter, htake⟩
  rw [removeOtherRoutes, hiter]
  simp only [Option.map_some', Option.some.injEq]
  rw [htake]

theorem mapM_eq_map_of_some {α β : Type} (f : α → Option β) (g : α → β) :
    ∀ (l : List α), (∀ x ∈ l, f x = some (g x)) → l.mapM f = some (l.map g) := by
  intro l
  induction l with
  | nil => intro _; rfl
  | cons a t ih =>
    intro h
    rw [List.mapM_cons, h a (List.mem_cons_self a t),
      ih (fun x hx => h x (List.mem_cons_of_mem a hx))]
    rfl

theorem keepRoute_dest (host : HostName) (subset : Str) (r : HTTPRouteDestination)
    (h : keepRoute host subset r = true) :
    ∃ d, r.destination = some d ∧ host d.host = true ∧
      (d.subset = subset ∨ d.subset = str "") := by
  cases hd : r.destination with
  | none => simp [keepRoute, hd] at h
  | some d =>
    simp only [keepRoute, hd, Bool.or_eq_true, Bool.and_eq_true, beq_iff_eq] at h
    rcases h with ⟨h1, h2⟩ | ⟨h1, h2⟩
    · exact ⟨d, rfl, h1, Or.inl h2⟩
    · exact ⟨d, rfl, h1, Or.inr h2⟩

theorem updateSubset_all_some (http : HTTPRoute) (subset : Str)
    (h : ∀ r ∈ http.route, ∃ d, r.destination = some d) :
    updateSubset http subset =
      some { http with route := http.route.map (fun r => { r with destination := r.destination.map (fun d => { d with subset := subset }) }) } := by
  have hall : ∀ x ∈ http.route,
      (fun r => match r.destination with
        | some d => some { r with destination := some { d with subset := subset } }
        | none => none) x =
      some ((fun r => { r with destination := r.destination.map (fun d => { d with subset := subset }) }) x) := by
    intro x hx
    rcases h x hx with ⟨d, hd⟩
    simp [hd]
  simp only [updateSubset]
  rw [mapM_eq_map_of_some _ _ http.route hall]
  rfl

theorem addHeaderMatch_route (http : HTTPRoute) (route : Route) :
    (addHeaderMatch http route).route = http.route := by
  unfold addHeaderMatch
  split <;> rfl

/-- C3 (amended): for every HTTP rule selected for rewriting whose
destination list contains at most one non-matching destination, the
rewritten rule that gets prepended consists exactly of the matching
destinations (host matches and subset was the current version or empty),
each with its subset set to `NewVersion` and its weight cleared to `0`, and
with `Mirror` and `Redirect` nil.  (With several non-matching destinations
the remove-while-ranging loop of `removeOtherRoutes` skips elements or
panics, see the counterexample.) -/
theorem C3_simplifyTargetRoute_amended (host : HostName) (version newVersion : Str)
    (route : Route) (targetHTTP : HTTPRoute) (target : VirtualService)
    (_hsel : targetHTTP.route.any (findRoutesEntry host version) = true)
    (hone : (targetHTTP.route.filter (fun r => !keepRoute host version r)).length ≤ 1) :
    ∃ rule, simplifyTargetRoute targetHTTP host version newVersion route target =
        some { target with http := rule :: target.http } ∧
      rule.route = (targetHTTP.route.filter (keepRoute host version)).map
        (fun r => { r with destination := r.destination.map (fun d => { d with subset := newVersion }), weight := 0 }) ∧
      (∀ r ∈ rule.route, ∃ d, r.destination = some d ∧ host d.host = true ∧
        d.subset = newVersion ∧ r.weight = 0) ∧
      rule.mirror = none ∧ rule.redirect = none := by
  have hrem := removeOtherRoutes_of_le_one_miss targetHTTP host version hone
  have hdest : ∀ r ∈ { targetHTTP with
      route := targetHTTP.route.filter (keepRoute host version) }.route,
      ∃ d, r.destination = some d := by
    intro r hr
    rcases keepRoute_dest host version r (List.mem_filter.1 hr).2 with ⟨d, hd, _⟩
    exact ⟨d, hd⟩
  have hupd := updateSubset_all_some
    { targetHTTP with route := targetHTTP.route.filter (keepRoute host version) }
    newVersion hdest
  unfold simplifyTargetRoute
  rw [hrem]
  simp only [Option.some_bind]
  rw [hupd]
  simp only [Option.map_some', Option.some.injEq]
  refine ⟨_, rfl, ?_, ?_, rfl, rfl⟩
  · show (removeWeight (addHeaderMatch _ route)).route = _
    simp only [removeWeight, addHeaderMatch_route]
    rw [List.map_map]
    rfl
  · intro r hr
    have hroute : (removeWeight (addHeaderMatch
        { targetHTTP with route := (targetHTTP.route.filter (keepRoute host version)).map (fun x => { x with destination := x.destination.map (fun d => { d with subset := newVersion }) }) }
        route)).route =
        (targetHTTP.route.filter (keepRoute host version)).map
          (fun x => { x with destination := x.destination.map (fun d => { d with subset := newVersion }), weight := 0 }) := by
      simp only [removeWeight, addHeaderMatch_route]
      rw [List.map_map]
      rfl
    rw [hroute] at hr
    rcases List.mem_map.1 hr with ⟨x, hx, rfl⟩
    rcases keepRoute_dest host version x (List.mem_filter.1 hx).2 with ⟨d, hd, hhost, _⟩
    refine ⟨{ d with subset := newVersion }, ?_, hhost, rfl, rfl⟩
    simp [hd]

/-- C3 (counterexample): on a rule whose destination list has two
consecutive non-matching destinations before a matching one, the rewritten
rule that gets prepended still contains a destination whose host does not
match — the remove-while-ranging loop skips the element shifted into the
removed slot. -/
theorem C3_counterexample :
    ruleNNM.route.any (findRoutesEntry hostReviews (str "v1")) = true ∧
    ((simplifyTargetRoute ruleNNM hostReviews (str "v1") (str "v1-demo") cRoute
        vsC3).bind (fun t => t.http.head?)).map
      (fun rule => rule.route.any (fun r =>
        match r.destination with
        | some d => !hostReviews d.host
        | none => true)) = some true := by
  decide

/-! ## Gateway mutate/revert structure (claims C4 and C8) -/

theorem existInList_iff (l : List Str) (x : Str) :
    existInList l x = true ↔ x ∈ l := by
  simp only [existInList, List.any_eq_true, beq_iff_eq]
  constructor
  · rintro ⟨e, he, rfl⟩; exact he
  · intro hx; exact ⟨x, hx, rfl⟩

theorem existInList_eq_false (l : List Str) (x : Str) :
    existInList l x = false ↔ x ∉ l := by
  rw [← Bool.not_eq_true, existInList_iff]

theorem prefix_newSessionHost (sess h : Str) :
    (sess ++ str ".").isPrefixOf (newSessionHost sess h) = true := by
  rw [List.isPrefixOf_iff_prefix]
  exact List.prefix_append _ _

theorem removeFromList_eq_erase : ∀ (l : List Str) (a : Str),
    removeFromList l a = l.erase a := by
  intro l a
  induction l with
  | nil => rfl
  | cons e t ih =>
    rw [removeFromList, List.erase_cons, ih]

theorem foldl_removeFromList_eq_diff : ∀ (tbr ex : List Str),
    tbr.foldl removeFromList ex = ex.diff tbr := by
  intro tbr
  induction tbr with
  | nil => intro ex; rfl
  | cons a t ih =>
    intro ex
    rw [List.foldl_cons, ih, List.diff_cons, removeFromList_eq_erase]

theorem diff_eq_nil_of_subset (ex tbr : List Str) (hnd : ex.Nodup)
    (hsub : ∀ e ∈ ex, e ∈ tbr) : ex.diff tbr = [] := by
  rw [List.Nodup.diff_eq_filter hnd]
  rw [List.filter_eq_nil_iff]
  intro e he
  simp [hsub e he]

/-- Structure of the first inner loop of `mutateGateway`: the scanned list is
fixed, and each appended session host goes to both the hosts list and the
existing-hosts list. -/
theorem mutateServerScan_structure (sess : Str) :
    ∀ (scan hosts ex added : List Str),
      ∃ δ added', mutateServerScan sess scan hosts ex added = (hosts ++ δ, ex ++ δ, added') ∧
        (∀ e ∈ δ, (∃ h ∈ scan, e = newSessionHost sess h) ∧ e ∉ ex) ∧
        (ex.Nodup → (ex ++ δ).Nodup) := by
  intro scan
  induction scan with
  | nil =>
    intro hosts ex added
    exact ⟨[], added, by simp [mutateServerScan], by simp, by simp⟩
  | cons h t ih =>
    intro hosts ex added
    rw [mutateServerScan]
    by_cases hg : (!existInList ex h && !existInList ex (newSessionHost sess h)) = true
    · rw [if_pos hg]
      rcases ih (hosts ++ [newSessionHost sess h]) (ex ++ [newSessionHost sess h]) _ with
        ⟨δ', added', heq, hmem, hnd⟩
      refine ⟨newSessionHost sess h :: δ', added', ?_, ?_, ?_⟩
      · rw [heq]
        simp [List.append_assoc]
      · intro e he
        rcases List.mem_cons.1 he with rfl | he'
        · simp only [Bool.and_eq_true, Bool.not_eq_true'] at hg
          exact ⟨⟨h, List.mem_cons_self h t, rfl⟩,
            (existInList_eq_false ex _).1 hg.2⟩
        · rcases hmem e he' with ⟨⟨h', hh', rfl⟩, hne⟩
          refine ⟨⟨h', List.mem_cons_of_mem h hh', rfl⟩, fun hcon => hne ?_⟩
          exact List.mem_append_left _ hcon
      · intro hnd0
        simp only [Bool.and_eq_true, Bool.not_eq_true'] at hg
        have h1 : (ex ++ [newSessionHost sess h]).Nodup := by
          rw [List.nodup_append]
          exact ⟨hnd0, List.nodup_singleton _,
            by simp [List.disjoint_singleton, (existInList_eq_false ex _).1 hg.2]⟩
        have h2 := hnd h1
        rw [List.append_assoc] at h2
        exact h2
    · rw [if_neg hg]
      rcases ih hosts ex _ with ⟨δ', added', heq, hmem, hnd⟩
      refine ⟨δ', added', heq, fun e he => ?_, hnd⟩
      rcases hmem e he with ⟨⟨h', hh', rfl⟩, hne⟩
      exact ⟨⟨h', List.mem_cons_of_mem h hh', rfl⟩, hne⟩

/-- Structure of the repair loop of `mutateGateway`: it appends a subset of
the recorded existing hosts that are not already on the server. -/
theorem mutateServerRepair_structure :
    ∀ (ex hosts : List Str),
      ∃ ρ, mutateServerRepair ex hosts = hosts ++ ρ ∧
        ∀ e ∈ ρ, e ∈ ex ∧ e ∉ hosts := by
  intro ex
  induction ex with
  | nil => intro hosts; exact ⟨[], by simp [mutateServerRepair], by simp⟩
  | cons e t ih =>
    intro hosts
    rw [mutateServerRepair, List.foldl_cons]
    by_cases hg : (!existInList hosts e && existInList hosts (baseHostOf e)) = true
    · rw [if_pos hg]
      rcases ih (hosts ++ [e]) with ⟨ρ', heq, hmem⟩
      rw [mutateServerRepair] at heq
      refine ⟨e :: ρ', by rw [heq]; simp [List.append_assoc], ?_⟩
      intro x hx
      rcases List.mem_cons.1 hx with rfl | hx'
      · simp only [Bool.and_eq_true, Bool.not_eq_true'] at hg
        exact ⟨List.mem_cons_self _ _, (existInList_eq_false hosts _).1 hg.1⟩
      · rcases hmem x hx' with ⟨hx1, hx2⟩
        exact ⟨List.mem_cons_of_mem _ hx1, fun hcon => hx2 (List.mem_append_left _ hcon)⟩
    · rw [if_neg hg]
      rcases ih hosts with ⟨ρ', heq, hmem⟩
      rw [mutateServerRepair] at heq
      refine ⟨ρ', heq, fun x hx => ?_⟩
      rcases hmem x hx with ⟨hx1, hx2⟩
      exact ⟨List.mem_cons_of_mem _ hx1, hx2⟩

/-- Structure of the full server loop of `mutateGateway` starting from an
existing-hosts list whose entries are all session hosts. -/
theorem mutateGatewayServers_structure (sess : Str) :
    ∀ (servers : List Server) (ex added : List Str),
      (∀ x ∈ ex, ∃ h, x = newSessionHost sess h) →
      ∃ servers' Δ added',
        mutateGatewayServers sess servers ex added = (servers', ex ++ Δ, added') ∧
        (∀ e ∈ Δ, (∃ sv ∈ servers, ∃ h ∈ sv.hosts, e = newSessionHost sess h) ∧
          e ∉ ex ∧ ∃ sv' ∈ servers', e ∈ sv'.hosts) ∧
        List.Forall₂ (fun sv sv' => ∃ newHosts, sv'.hosts = sv.hosts ++ newHosts ∧
          ∀ x ∈ newHosts, x ∈ ex ++ Δ ∧ ∃ h, x = newSessionHost sess h)
          servers servers' ∧
        (ex.Nodup → (ex ++ Δ).Nodup) := by
  intro servers
  induction servers with
  | nil =>
    intro ex added hexf
    exact ⟨[], [], added, by simp [mutateGatewayServers], by simp, by simp, by simp⟩
  | cons sv rest ih =>
    intro ex added hexf
    rcases mutateServerScan_structure sess sv.hosts sv.hosts ex added with
      ⟨δ, added1, hscan, hδ, hndδ⟩
    rcases mutateServerRepair_structure (ex ++ δ) (sv.hosts ++ δ) with ⟨ρ, hrep, hρ⟩
    have hexf1 : ∀ x ∈ ex ++ δ, ∃ h, x = newSessionHost sess h := by
      intro x hx
      rcases List.mem_append.1 hx with hx | hx
      · exact hexf x hx
      · rcases (hδ x hx).1 with ⟨h, _, rfl⟩
        exact ⟨h, rfl⟩
    rcases ih (ex ++ δ) added1 hexf1 with ⟨rest', Δ', added', hrest, hΔ', hfa, hnd'⟩
    refine ⟨⟨sv.hosts ++ δ ++ ρ⟩ :: rest', δ ++ Δ', added', ?_, ?_, ?_, ?_⟩
    · rw [mutateGatewayServers, mutateServer, hscan]
      simp only
      rw [hrep, hrest]
      simp [List.append_assoc]
    · intro e he
      rcases List.mem_append.1 he with he | he
      · rcases hδ e he with ⟨⟨h, hh, rfl⟩, hne⟩
        refine ⟨⟨sv, List.mem_cons_self _ _, h, hh, rfl⟩, hne, ?_⟩
        refine ⟨⟨sv.hosts ++ δ ++ ρ⟩, List.mem_cons_self _ _, ?_⟩
        exact List.mem_append_left _ (List.mem_append_right _ he)
      · rcases hΔ' e he with ⟨⟨sv2, hsv2, h, hh, rfl⟩, hne, sv2', hsv2', hmem2⟩
        refine ⟨⟨sv2, List.mem_cons_of_mem _ hsv2, h, hh, rfl⟩,
          fun hcon => hne (List.mem_append_left _ hcon), sv2',
          List.mem_cons_of_mem _ hsv2', hmem2⟩
    · rw [List.forall₂_cons]
      constructor
      · refine ⟨δ ++ ρ, by rw [List.append_assoc], ?_⟩
        intro x hx
        rcases List.mem_append.1 hx with hx | hx
        · refine ⟨?_, ?_⟩
          · rw [show ex ++ (δ ++ Δ') = ex ++ δ ++ Δ' from (List.append_assoc _ _ _).symm]
            exact List.mem_append_left _ (List.mem_append_right _ hx)
          · rcases (hδ x hx).1 with ⟨h, _, rfl⟩
            exact ⟨h, rfl⟩
        · rcases hρ x hx with ⟨hx1, _⟩
          refine ⟨?_, hexf1 x hx1⟩
          rw [show ex ++ (δ ++ Δ') = ex ++ δ ++ Δ' from (List.append_assoc _ _ _).symm]
          exact List.mem_append_left _ hx1
      · have : ex ++ δ ++ Δ' = ex ++ (δ ++ Δ') := List.append_assoc _ _ _
        rw [← this]
        exact hfa
    · intro hnd0
      have := hnd' (hndδ hnd0)
      rwa [List.append_assoc] at this

/-- The per-server removal loop of `revertGateway` is a left-to-right
partition by the removal condition. -/
theorem revertServerScan_eq (sess : Str) (ex : List Str) :
    ∀ (hosts : List Str),
      revertServerScan sess ex hosts =
        (hosts.filter (fun h => !(existInList ex h && (sess ++ str ".").isPrefixOf h)),
         hosts.filter (fun h => existInList ex h && (sess ++ str ".").isPrefixOf h)) := by
  intro hosts
  induction hosts with
  | nil => rfl
  | cons h t ih =>
    rw [revertServerScan, ih]
    by_cases hc : (existInList ex h && (sess ++ str ".").isPrefixOf h) = true
    · rw [if_pos hc]
      have hab : existInList ex h = true ∧ (sess ++ str ".").isPrefixOf h = true := by
        simpa using hc
      simp [List.filter_cons, hab.1, hab.2]
    · rw [if_neg hc]
      have hab : existInList ex h = false ∨ (sess ++ str ".").isPrefixOf h = false := by
        by_cases h1 : existInList ex h = true
        · by_cases h2 : (sess ++ str ".").isPrefixOf h = true
          · exact absurd (by simp [h1, h2]) hc
          · exact Or.inr (Bool.eq_false_iff.mpr h2)
        · exact Or.inl (Bool.eq_false_iff.mpr h1)
      rcases hab with hab | hab <;> simp [List.filter_cons, hab]

theorem parseIkeHosts_intercalate (l : List Str)
    (hcf : ∀ e ∈ l, (',') ∉ e) (hne : ∀ e ∈ l, e ≠ []) :
    parseIkeHosts (some (List.intercalate (str ",") l)) = l := by
  have hcomma : str "," = [','] := rfl
  rcases l with _ | ⟨e, t⟩
  · rfl
  · by_cases hs : List.intercalate (str ",") (e :: t) = str ""
    · exfalso
      have hsp := List.splitOn_intercalate (e :: t) ','
        (fun x hx => hcf x hx) (by simp)
      rw [← hcomma, hs] at hsp
      have hmem0 : ([] : Str) ∈ e :: t := by
        rw [← hsp]
        exact List.mem_singleton_self []
      exact hne _ hmem0 rfl
    · simp only [parseIkeHosts, Option.getD_some]
      rw [if_neg hs, hcomma]
      exact List.splitOn_intercalate (e :: t) ',' (fun x hx => hcf x hx) (by simp)

theorem revertGatewayServers_restore (sess : Str) (ex : List Str)
    (hexf : ∀ x ∈ ex, ∃ h, x = newSessionHost sess h) :
    ∀ (servers servers' : List Server),
      List.Forall₂ (fun sv sv' => ∃ newHosts, sv'.hosts = sv.hosts ++ newHosts ∧
        ∀ x ∈ newHosts, x ∈ ex ∧ ∃ h, x = newSessionHost sess h) servers servers' →
      (∀ sv ∈ servers, ∀ h ∈ sv.hosts, (sess ++ str ".").isPrefixOf h = false) →
      ∃ tbr, revertGatewayServers sess ex servers' = (servers, tbr) ∧
        ∀ e ∈ ex, (∃ sv' ∈ servers', e ∈ sv'.hosts) → e ∈ tbr := by
  intro servers
  induction servers with
  | nil =>
    intro servers' hfa _
    rw [List.forall₂_nil_left_iff] at hfa
    subst hfa
    exact ⟨[], rfl, by simp⟩
  | cons sv rest ih =>
    intro servers' hfa hpre
    rcases servers' with _ | ⟨sv', rest'⟩
    · exact absurd hfa (by simp)
    rw [List.forall₂_cons] at hfa
    rcases hfa with ⟨⟨newHosts, hsv', hnewm⟩, hfa'⟩
    rcases ih rest' hfa' (fun s hs => hpre s (List.mem_cons_of_mem _ hs)) with
      ⟨tbr', hr', hmem'⟩
    have hscan := revertServerScan_eq sess ex sv'.hosts
    have hkeep : sv'.hosts.filter
        (fun h => !(existInList ex h && (sess ++ str ".").isPrefixOf h)) = sv.hosts := by
      rw [hsv', List.filter_append]
      have h1 : sv.hosts.filter
          (fun h => !(existInList ex h && (sess ++ str ".").isPrefixOf h)) = sv.hosts := by
        rw [List.filter_eq_self]
        intro a ha
        have := hpre sv (List.mem_cons_self _ _) a ha
        simp [this]
      have h2 : newHosts.filter
          (fun h => !(existInList ex h && (sess ++ str ".").isPrefixOf h)) = [] := by
        rw [List.filter_eq_nil_iff]
        intro a ha
        rcases hnewm a ha with ⟨haex, h, rfl⟩
        simp [(existInList_iff ex _).2 haex, prefix_newSessionHost]
      rw [h1, h2, List.append_nil]
    refine ⟨sv'.hosts.filter
        (fun h => existInList ex h && (sess ++ str ".").isPrefixOf h) ++ tbr', ?_, ?_⟩
    · rw [revertGatewayServers, hscan]
      simp only
      rw [hr', hkeep]
    · intro e he hesv
      rcases hesv with ⟨svx, hsvx, hmemx⟩
      rcases List.mem_cons.1 hsvx with rfl | hsvx'
      · apply List.mem_append_left
        rw [List.mem_filter]
        refine ⟨hmemx, ?_⟩
        rcases hexf e he with ⟨h, rfl⟩
        simp [(existInList_iff ex _).2 he, prefix_newSessionHost]
      · exact List.mem_append_right _ (hmem' e he ⟨svx, hsvx', hmemx⟩)

/-- C4 (amended): on a gateway with no `ike.hosts` annotation, no server
host carrying the `<sessionName>.` prefix, and no comma in the session name
or any server host, `revertGateway` after `mutateGateway` is the identity:
the per-server host lists are restored exactly and the annotation key is
absent.  (A comma inside a host corrupts the comma-joined annotation on the
way back, see the counterexample.) -/
theorem C4_revertGateway_mutateGateway (sess : Str) (gw : Gateway)
    (hann : gw.ikeHostsAnn = none)
    (hpre : ∀ sv ∈ gw.servers, ∀ h ∈ sv.hosts, (sess ++ str ".").isPrefixOf h = false)
    (hcs : (',') ∉ sess)
    (hch : ∀ sv ∈ gw.servers, ∀ h ∈ sv.hosts, (',') ∉ h) :
    revertGateway sess (mutateGateway sess gw).1 = gw := by
  obtain ⟨servers, ann⟩ := gw
  have hann' : ann = none := hann
  subst hann'
  rcases mutateGatewayServers_structure sess servers [] [] (by simp) with
    ⟨servers', Δ, added', hms, hΔ, hfa, hnd⟩
  simp only [List.nil_append] at hms hΔ hfa hnd
  have hmut : (mutateGateway sess ⟨servers, none⟩).1 =
      { servers := servers', ikeHostsAnn := some (List.intercalate (str ",") Δ) } := by
    simp only [mutateGateway]
    rw [show parseIkeHosts (Gateway.mk servers none).ikeHostsAnn = [] from rfl, hms]
  rw [hmut]
  have hΔforms : ∀ e ∈ Δ, ∃ h, e = newSessionHost sess h := by
    intro e he
    rcases hΔ e he with ⟨⟨sv, _, h, _, rfl⟩, _⟩
    exact ⟨h, rfl⟩
  have hΔcomma : ∀ e ∈ Δ, (',') ∉ e := by
    intro e he hcm
    rcases hΔ e he with ⟨⟨sv, hsv, h, hh, rfl⟩, _⟩
    rcases List.mem_append.1 hcm with hcm | hcm
    · rcases List.mem_append.1 hcm with hcm | hcm
      · exact hcs hcm
      · simp [str] at hcm
    · exact hch sv hsv h hh hcm
  have hΔne : ∀ e ∈ Δ, e ≠ [] := by
    intro e he hnil
    rcases hΔforms e he with ⟨h, rfl⟩
    simp only [newSessionHost, List.append_eq_nil] at hnil
    simp [str] at hnil
  have hΔnodup : Δ.Nodup := hnd List.nodup_nil
  simp only [revertGateway]
  rw [parseIkeHosts_intercalate Δ hΔcomma hΔne]
  rcases revertGatewayServers_restore sess Δ hΔforms servers servers' hfa hpre with
    ⟨tbr, hrs, htbr⟩
  rw [hrs]
  have hdrain : tbr.foldl removeFromList Δ = [] := by
    rw [foldl_removeFromList_eq_diff]
    apply diff_eq_nil_of_subset _ _ hΔnodup
    intro e he
    rcases hΔ e he with ⟨_, _, sv', hsv', hmem⟩
    exact htbr e he ⟨sv', hsv', hmem⟩
  rw [hdrain]
  simp

/-- C4 (counterexample): with a comma inside a server host, revert after
mutate is not the identity — the comma-joined annotation splits into pieces
that match nothing, so the added session host stays on the server and the
annotation key survives. -/
theorem C4_counterexample :
    (revertGateway (str "s") (mutateGateway (str "s") gwComma).1).servers.map
        Server.hosts ≠ gwComma.servers.map Server.hosts ∧
    (revertGateway (str "s") (mutateGateway (str "s") gwComma).1).ikeHostsAnn ≠ none := by
  decide

/-- Witness for C4 at a clean two-server gateway. -/
theorem C4_witness :
    gwOk.ikeHostsAnn = none ∧
    revertGateway (str "demo") (mutateGateway (str "demo") gwOk).1 = gwOk :=
  ⟨rfl, C4_revertGateway_mutateGateway (str "demo") gwOk rfl (by decide) (by decide)
    (by decide)⟩

theorem newSessionHost_eq_cons (s h : Str) :
    newSessionHost s h = s ++ '.' :: h := by
  simp [newSessionHost, str, List.append_assoc]

theorem newSessionHost_ne_nil (s h : Str) : newSessionHost s h ≠ [] := by
  intro hnil
  rw [newSessionHost_eq_cons, List.append_eq_nil] at hnil
  exact List.cons_ne_nil _ _ hnil.2

theorem comma_notMem_newSessionHost (s h : Str) (hcs : (',') ∉ s)
    (hch : (',') ∉ h) : (',') ∉ newSessionHost s h := by
  intro hcm
  rw [newSessionHost_eq_cons, List.mem_append, List.mem_cons] at hcm
  rcases hcm with hcm | hcm | hcm
  · exact hcs hcm
  · exact absurd hcm (by decide)
  · exact hch hcm

theorem splitOn_dot_newSessionHost (s h : Str) (hs : ('.') ∉ s) :
    (newSessionHost s h).splitOn '.' = s :: h.splitOn '.' := by
  rw [newSessionHost_eq_cons]
  show List.splitOnP (fun c => c == '.') (s ++ '.' :: h) =
    s :: List.splitOnP (fun c => c == '.') h
  refine List.splitOnP_first _ s ?_ '.' (by simp) h
  intro x hx hc
  rw [beq_iff_eq] at hc
  exact hs (hc ▸ hx)

theorem baseHostOf_newSessionHost (s h : Str) (hs : ('.') ∉ s) :
    baseHostOf (newSessionHost s h) = h := by
  rw [baseHostOf, splitOn_dot_newSessionHost s h hs]
  show List.intercalate (str ".") (h.splitOn '.') = h
  rw [show str "." = ['.'] from rfl]
  exact List.intercalate_splitOn h '.'

theorem takeWhile_noDot (s h : Str) (hs : ('.') ∉ s) :
    (s ++ '.' :: h).takeWhile (fun c => !(c == '.')) = s := by
  induction s with
  | nil => simp [List.takeWhile_cons]
  | cons c cs ih =>
    have hc : ('.') ∉ cs := fun hx => hs (List.mem_cons_of_mem _ hx)
    have hcd : ¬ c = '.' := fun hh => hs (hh ▸ List.mem_cons_self c cs)
    rw [List.cons_append, List.takeWhile_cons]
    simp [hcd, ih hc]

theorem newSessionHost_cross_ne (s t a b : Str) (hs : ('.') ∉ s) (ht : ('.') ∉ t)
    (hst : s ≠ t) : newSessionHost s a ≠ newSessionHost t b := by
  intro heq
  rw [newSessionHost_eq_cons, newSessionHost_eq_cons] at heq
  have h2 := congrArg (List.takeWhile (fun c => !(c == '.'))) heq
  rw [takeWhile_noDot s a hs, takeWhile_noDot t b ht] at h2
  exact hst h2

theorem newSessionHost_inj (s a b : Str)
    (h : newSessionHost s a = newSessionHost s b) : a = b := by
  simp only [newSessionHost] at h
  exact List.append_cancel_left h

/-- Membership in the repair loop's result: an entry is added exactly when
it is recorded and its base host is on the server, provided no recorded
entry is the base host of another. -/
theorem mutateServerRepair_mem :
    ∀ (ex hosts : List Str),
      (∀ a ∈ ex, ∀ b ∈ ex, baseHostOf a ≠ b) →
      ∀ x, x ∈ mutateServerRepair ex hosts ↔
        x ∈ hosts ∨ (x ∈ ex ∧ baseHostOf x ∈ hosts) := by
  intro ex
  induction ex with
  | nil => intro hosts _ x; simp [mutateServerRepair]
  | cons e rest ih =>
    intro hosts hb x
    have hbr : ∀ a ∈ rest, ∀ b ∈ rest, baseHostOf a ≠ b := fun a ha b hbb =>
      hb a (List.mem_cons_of_mem _ ha) b (List.mem_cons_of_mem _ hbb)
    rw [mutateServerRepair, List.foldl_cons]
    by_cases hg : (!existInList hosts e && existInList hosts (baseHostOf e)) = true
    · rw [if_pos hg]
      rw [show rest.foldl (fun hosts existing =>
          if !existInList hosts existing && existInList hosts (baseHostOf existing) then
            hosts ++ [existing] else hosts) (hosts ++ [e]) =
          mutateServerRepair rest (hosts ++ [e]) from rfl]
      rw [ih (hosts ++ [e]) hbr x]
      simp only [Bool.and_eq_true, Bool.not_eq_true'] at hg
      have hgb : baseHostOf e ∈ hosts := (existInList_iff hosts _).1 hg.2
      constructor
      · rintro (hx | ⟨hx1, hx2⟩)
        · rcases List.mem_append.1 hx with hx | hx
          · exact Or.inl hx
          · rcases List.mem_singleton.1 hx with rfl
            exact Or.inr ⟨List.mem_cons_self _ _, hgb⟩
        · rcases List.mem_append.1 hx2 with hx2 | hx2
          · exact Or.inr ⟨List.mem_cons_of_mem _ hx1, hx2⟩
          · rcases List.mem_singleton.1 hx2 with hx2
            exact absurd hx2 (hb x (List.mem_cons_of_mem _ hx1) e (List.mem_cons_self _ _))
      · rintro (hx | ⟨hx1, hx2⟩)
        · exact Or.inl (List.mem_append_left _ hx)
        · rcases List.mem_cons.1 hx1 with rfl | hx1'
          · exact Or.inl (List.mem_append_right _ (List.mem_singleton_self _))
          · exact Or.inr ⟨hx1', List.mem_append_left _ hx2⟩
    · rw [if_neg hg]
      rw [show rest.foldl (fun hosts existing =>
          if !existInList hosts existing && existInList hosts (baseHostOf existing) then
            hosts ++ [existing] else hosts) hosts =
          mutateServerRepair rest hosts from rfl]
      rw [ih hosts hbr x]
      have hg' : existInList hosts e = true ∨ existInList hosts (baseHostOf e) = false := by
        by_cases h1 : existInList hosts e = true
        · exact Or.inl h1
        · right
          by_cases h2 : existInList hosts (baseHostOf e) = true
          · exact absurd (by simp [Bool.eq_false_iff.mpr h1, h2]) hg
          · exact Bool.eq_false_iff.mpr h2
      constructor
      · rintro (hx | ⟨hx1, hx2⟩)
        · exact Or.inl hx
        · exact Or.inr ⟨List.mem_cons_of_mem _ hx1, hx2⟩
      · rintro (hx | ⟨hx1, hx2⟩)
        · exact Or.inl hx
        · rcases List.mem_cons.1 hx1 with rfl | hx1'
          · rcases hg' with h1 | h1
            · exact Or.inl ((existInList_iff hosts x).1 h1)
            · exact absurd hx2 ((existInList_eq_false hosts _).1 h1)
          · exact Or.inr ⟨hx1', hx2⟩

/-- Membership through the scan loop of `mutateGateway`, with the existing
list characterized as session-host images: `tP` describes the `t`-session
hosts already recorded, `SIn` the `s`-session hosts already recorded. -/
theorem mutateServerScan_mem (s t : Str) (hds : ('.') ∉ s) (hdt : ('.') ∉ t)
    (hst : s ≠ t) (tP : Str → Prop) :
    ∀ (scan : List Str) (SIn : Str → Prop) (hosts ex added : List Str),
      (∀ x, x ∈ ex ↔ (∃ h, tP h ∧ x = newSessionHost t h) ∨
        (∃ h, SIn h ∧ x = newSessionHost s h)) →
      (∀ x ∈ scan, SessFree s t x ∨ x ∈ ex) →
      ∃ δ added2,
        mutateServerScan s scan hosts ex added = (hosts ++ δ, ex ++ δ, added2) ∧
        (∀ x, x ∈ ex ++ δ ↔ (∃ h, tP h ∧ x = newSessionHost t h) ∨
          (∃ h, (SIn h ∨ (h ∈ scan ∧ SessFree s t h)) ∧ x = newSessionHost s h)) ∧
        (∀ x ∈ δ, ∃ h, h ∈ scan ∧ SessFree s t h ∧ x = newSessionHost s h) := by
  intro scan
  induction scan with
  | nil =>
    intro SIn hosts ex added hex _
    refine ⟨[], added, by simp [mutateServerScan], ?_, by simp⟩
    intro x
    simp only [List.append_nil]
    rw [hex x]
    constructor
    · rintro (h | ⟨h, hh, rfl⟩)
      · exact Or.inl h
      · exact Or.inr ⟨h, Or.inl hh, rfl⟩
    · rintro (h | ⟨h, (hh | ⟨hh, _⟩), rfl⟩)
      · exact Or.inl h
      · exact Or.inr ⟨h, hh, rfl⟩
      · exact absurd hh (List.not_mem_nil h)
  | cons a tl ih =>
    intro SIn hosts ex added hex hscan
    have hexNotFree : ∀ x ∈ ex, ¬ SessFree s t x := by
      intro x hx hfree
      rcases (hex x).1 hx with ⟨h, _, rfl⟩ | ⟨h, _, rfl⟩
      · exact absurd hfree.2 (by simp [prefix_newSessionHost])
      · exact absurd hfree.1 (by simp [prefix_newSessionHost])
    by_cases hfa : SessFree s t a
    · have hanotex : a ∉ ex := fun hc => hexNotFree a hc hfa
      have hea : existInList ex a = false := (existInList_eq_false _ _).2 hanotex
      by_cases hnh : newSessionHost s a ∈ ex
      · have hSa : SIn a := by
          rcases (hex _).1 hnh with ⟨h, _, heq⟩ | ⟨h, hh, heq⟩
          · exact absurd heq (newSessionHost_cross_ne s t a h hds hdt hst)
          · rwa [newSessionHost_inj s a h heq]
        have hguard : (!existInList ex a && !existInList ex (newSessionHost s a)) = false := by
          simp [(existInList_iff _ _).2 hnh]
        have hstep : mutateServerScan s (a :: tl) hosts ex added =
            mutateServerScan s tl hosts ex (added ++ [newSessionHost s a]) := by
          simp [mutateServerScan, hguard, (existInList_iff _ _).2 hnh]
        obtain ⟨δ, added2, hrun, hchar, hδ⟩ := ih SIn hosts ex
          (added ++ [newSessionHost s a]) hex
          (fun x hx => hscan x (List.mem_cons_of_mem _ hx))
        refine ⟨δ, added2, by rw [hstep, hrun], ?_, ?_⟩
        · intro x
          rw [hchar x]
          constructor
          · rintro (h | ⟨h, (hh | hh), rfl⟩)
            · exact Or.inl h
            · exact Or.inr ⟨h, Or.inl hh, rfl⟩
            · exact Or.inr ⟨h, Or.inr ⟨List.mem_cons_of_mem _ hh.1, hh.2⟩, rfl⟩
          · rintro (h | ⟨h, (hh | ⟨hh1, hh2⟩), rfl⟩)
            · exact Or.inl h
            · exact Or.inr ⟨h, Or.inl hh, rfl⟩
            · rcases List.mem_cons.1 hh1 with rfl | hh1'
              · exact Or.inr ⟨h, Or.inl hSa, rfl⟩
              · exact Or.inr ⟨h, Or.inr ⟨hh1', hh2⟩, rfl⟩
        · intro x hx
          obtain ⟨h, hh1, hh2, hh3⟩ := hδ x hx
          exact ⟨h, List.mem_cons_of_mem _ hh1, hh2, hh3⟩
      · have hguard : (!existInList ex a && !existInList ex (newSessionHost s a)) = true := by
          simp [hea, (existInList_eq_false _ _).2 hnh]
        have hstep : mutateServerScan s (a :: tl) hosts ex added =
            mutateServerScan s tl (hosts ++ [newSessionHost s a])
              (ex ++ [newSessionHost s a]) (added ++ [newSessionHost s a]) := by
          simp [mutateServerScan, hguard, existInList_iff]
        have hex2 : ∀ x, x ∈ ex ++ [newSessionHost s a] ↔
            (∃ h, tP h ∧ x = newSessionHost t h) ∨
            (∃ h, (SIn h ∨ h = a) ∧ x = newSessionHost s h) := by
          intro x
          rw [List.mem_append, hex x, List.mem_singleton]
          constructor
          · rintro ((h | ⟨h, hh, rfl⟩) | rfl)
            · exact Or.inl h
            · exact Or.inr ⟨h, Or.inl hh, rfl⟩
            · exact Or.inr ⟨a, Or.inr rfl, rfl⟩
          · rintro (h | ⟨h, (hh | rfl), rfl⟩)
            · exact Or.inl (Or.inl h)
            · exact Or.inl (Or.inr ⟨h, hh, rfl⟩)
            · exact Or.inr rfl
        have hscantl : ∀ x ∈ tl, SessFree s t x ∨ x ∈ ex ++ [newSessionHost s a] := by
          intro x hx
          rcases hscan x (List.mem_cons_of_mem _ hx) with h | h
          · exact Or.inl h
          · exact Or.inr (List.mem_append_left _ h)
        obtain ⟨δ, added2, hrun, hchar, hδ⟩ := ih (fun h => SIn h ∨ h = a)
          (hosts ++ [newSessionHost s a]) (ex ++ [newSessionHost s a])
          (added ++ [newSessionHost s a]) hex2 hscantl
        refine ⟨newSessionHost s a :: δ, added2, ?_, ?_, ?_⟩
        · rw [hstep, hrun]
          simp [List.append_assoc]
        · intro x
          have hm : x ∈ ex ++ newSessionHost s a :: δ ↔
              x ∈ (ex ++ [newSessionHost s a]) ++ δ := by
            simp [List.append_assoc]
          rw [hm, hchar x]
          constructor
          · rintro (h | ⟨h, ((hh | rfl) | hh), rfl⟩)
            · exact Or.inl h
            · exact Or.inr ⟨h, Or.inl hh, rfl⟩
            · exact Or.inr ⟨h, Or.inr ⟨List.mem_cons_self _ _, hfa⟩, rfl⟩
            · exact Or.inr ⟨h, Or.inr ⟨List.mem_cons_of_mem _ hh.1, hh.2⟩, rfl⟩
          · rintro (h | ⟨h, (hh | ⟨hh1, hh2⟩), rfl⟩)
            · exact Or.inl h
            · exact Or.inr ⟨h, Or.inl (Or.inl hh), rfl⟩
            · rcases List.mem_cons.1 hh1 with rfl | hh1'
              · exact Or.inr ⟨h, Or.inl (Or.inr rfl), rfl⟩
              · exact Or.inr ⟨h, Or.inr ⟨hh1', hh2⟩, rfl⟩
        · intro x hx
          rcases List.mem_cons.1 hx with rfl | hx'
          · exact ⟨a, List.mem_cons_self _ _, hfa, rfl⟩
          · obtain ⟨h, hh1, hh2, hh3⟩ := hδ x hx'
            exact ⟨h, List.mem_cons_of_mem _ hh1, hh2, hh3⟩
    · have haex : a ∈ ex := by
        rcases hscan a (List.mem_cons_self _ _) with h | h
        · exact absurd h hfa
        · exact h
      have hguard : (!existInList ex a && !existInList ex (newSessionHost s a)) = false := by
        simp [(existInList_iff _ _).2 haex]
      obtain ⟨added1, hstep⟩ : ∃ ad, mutateServerScan s (a :: tl) hosts ex added =
          mutateServerScan s tl hosts ex ad := by
        by_cases hnh : existInList ex (newSessionHost s a) = true
        · exact ⟨added ++ [newSessionHost s a],
            by simp [mutateServerScan, (existInList_iff _ _).2 haex, hnh]⟩
        · exact ⟨added, by simp [mutateServerScan, (existInList_iff _ _).2 haex, hnh]⟩
      obtain ⟨δ, added2, hrun, hchar, hδ⟩ := ih SIn hosts ex added1 hex
        (fun x hx => hscan x (List.mem_cons_of_mem _ hx))
      refine ⟨δ, added2, by rw [hstep, hrun], ?_, ?_⟩
      · intro x
        rw [hchar x]
        constructor
        · rintro (h | ⟨h, (hh | hh), rfl⟩)
          · exact Or.inl h
          · exact Or.inr ⟨h, Or.inl hh, rfl⟩
          · exact Or.inr ⟨h, Or.inr ⟨List.mem_cons_of_mem _ hh.1, hh.2⟩, rfl⟩
        · rintro (h | ⟨h, (hh | ⟨hh1, hh2⟩), rfl⟩)
          · exact Or.inl h
          · exact Or.inr ⟨h, Or.inl hh, rfl⟩
          · rcases List.mem_cons.1 hh1 with rfl | hh1'
            · exact absurd hh2 hfa
            · exact Or.inr ⟨h, Or.inr ⟨hh1', hh2⟩, rfl⟩
      · intro x hx
        obtain ⟨h, hh1, hh2, hh3⟩ := hδ x hx
        exact ⟨h, List.mem_cons_of_mem _ hh1, hh2, hh3⟩

/-- Membership through the whole server loop of `mutateGateway`: with `tP`
describing the `t`-session hosts already present (from an earlier
`mutateGateway t` run over the original servers `origs`) and `SIn` the
`s`-session hosts already recorded, the run adds exactly the `s`-session
image of the original hosts to the recorded list and to each server. -/
theorem mutateGatewayServers_mem (s t : Str) (hds : ('.') ∉ s) (hdt : ('.') ∉ t)
    (hst : s ≠ t) (UB : List Str) (hUB : ∀ h ∈ UB, SessFree s t h) :
    ∀ (origs servers : List Server) (ex added : List Str) (tP SIn : Str → Prop),
      (∀ h, tP h → h ∈ UB) →
      (∀ h, SIn h → h ∈ UB) →
      List.Forall₂ (fun o sv => (∀ h ∈ o.hosts, h ∈ UB) ∧
        (∀ x, x ∈ sv.hosts ↔ x ∈ o.hosts ∨
          ∃ h, tP h ∧ h ∈ o.hosts ∧ x = newSessionHost t h)) origs servers →
      (∀ x, x ∈ ex ↔ (∃ h, tP h ∧ x = newSessionHost t h) ∨
        (∃ h, SIn h ∧ x = newSessionHost s h)) →
      ∃ servers2 ex2 added2,
        mutateGatewayServers s servers ex added = (servers2, ex2, added2) ∧
        (∀ x, x ∈ ex2 ↔ (∃ h, tP h ∧ x = newSessionHost t h) ∨
          (∃ h, (SIn h ∨ ∃ o ∈ origs, h ∈ o.hosts) ∧ x = newSessionHost s h)) ∧
        List.Forall₂ (fun o sv => (∀ h ∈ o.hosts, h ∈ UB) ∧
          (∀ x, x ∈ sv.hosts ↔ x ∈ o.hosts ∨
            (∃ h, tP h ∧ h ∈ o.hosts ∧ x = newSessionHost t h) ∨
            (∃ h, h ∈ o.hosts ∧ x = newSessionHost s h))) origs servers2 := by
  intro origs
  induction origs with
  | nil =>
    intro servers ex added tP SIn htP hSIn hfa hex
    rw [List.forall₂_nil_left_iff] at hfa
    subst hfa
    refine ⟨[], ex, added, by simp [mutateGatewayServers], ?_, List.Forall₂.nil⟩
    intro x
    rw [hex x]
    constructor
    · rintro (h | ⟨h, hh, rfl⟩)
      · exact Or.inl h
      · exact Or.inr ⟨h, Or.inl hh, rfl⟩
    · rintro (h | ⟨h, (hh | ⟨o, ho, _⟩), rfl⟩)
      · exact Or.inl h
      · exact Or.inr ⟨h, hh, rfl⟩
      · exact absurd ho (List.not_mem_nil o)
  | cons o orest ih =>
    intro servers ex added tP SIn htP hSIn hfa hex
    rcases servers with _ | ⟨sv, srest⟩
    · cases hfa
    rw [List.forall₂_cons] at hfa
    obtain ⟨⟨hoUB, hoch⟩, hrest⟩ := hfa
    have hscanhyp : ∀ x ∈ sv.hosts, SessFree s t x ∨ x ∈ ex := by
      intro x hx
      rcases (hoch x).1 hx with hx' | ⟨h, hh1, hh2, rfl⟩
      · exact Or.inl (hUB x (hoUB x hx'))
      · exact Or.inr ((hex _).2 (Or.inl ⟨h, hh1, rfl⟩))
    obtain ⟨δ, added1, hscanrun, hchar1, hδ⟩ :=
      mutateServerScan_mem s t hds hdt hst tP sv.hosts SIn sv.hosts ex added hex hscanhyp
    have hsvfree : ∀ h, (h ∈ sv.hosts ∧ SessFree s t h) ↔ h ∈ o.hosts := by
      intro h
      constructor
      · rintro ⟨hh, hfree⟩
        rcases (hoch h).1 hh with h' | ⟨h2, _, _, rfl⟩
        · exact h'
        · exact absurd hfree.2 (by simp [prefix_newSessionHost])
      · intro hh
        exact ⟨(hoch h).2 (Or.inl hh), hUB h (hoUB h hh)⟩
    have hex1 : ∀ x, x ∈ ex ++ δ ↔ (∃ h, tP h ∧ x = newSessionHost t h) ∨
        (∃ h, (SIn h ∨ h ∈ o.hosts) ∧ x = newSessionHost s h) := by
      intro x
      rw [hchar1 x]
      constructor
      · rintro (h | ⟨h, (hh | hh), rfl⟩)
        · exact Or.inl h
        · exact Or.inr ⟨h, Or.inl hh, rfl⟩
        · exact Or.inr ⟨h, Or.inr ((hsvfree h).1 hh), rfl⟩
      · rintro (h | ⟨h, (hh | hh), rfl⟩)
        · exact Or.inl h
        · exact Or.inr ⟨h, Or.inl hh, rfl⟩
        · exact Or.inr ⟨h, Or.inr ((hsvfree h).2 hh), rfl⟩
    have hex1NotFree : ∀ x ∈ ex ++ δ, ¬ SessFree s t x := by
      intro x hx hfree
      rcases (hex1 x).1 hx with ⟨h, _, rfl⟩ | ⟨h, _, rfl⟩
      · exact absurd hfree.2 (by simp [prefix_newSessionHost])
      · exact absurd hfree.1 (by simp [prefix_newSessionHost])
    have hbase : ∀ a ∈ ex ++ δ, ∃ h, h ∈ UB ∧ baseHostOf a = h := by
      intro a ha
      rcases (hex1 a).1 ha with ⟨h, hh, rfl⟩ | ⟨h, hh, rfl⟩
      · exact ⟨h, htP h hh, baseHostOf_newSessionHost t h hdt⟩
      · rcases hh with hh' | hh'
        · exact ⟨h, hSIn h hh', baseHostOf_newSessionHost s h hds⟩
        · exact ⟨h, hoUB h hh', baseHostOf_newSessionHost s h hds⟩
    have hb : ∀ a ∈ ex ++ δ, ∀ b ∈ ex ++ δ, baseHostOf a ≠ b := by
      intro a ha b hbmem heq
      obtain ⟨h, hhUB, hba⟩ := hbase a ha
      rw [hba] at heq
      subst heq
      exact hex1NotFree h hbmem (hUB h hhUB)
    have hrep := mutateServerRepair_mem (ex ++ δ) (sv.hosts ++ δ) hb
    have hch2 : ∀ x, x ∈ mutateServerRepair (ex ++ δ) (sv.hosts ++ δ) ↔
        x ∈ o.hosts ∨ (∃ h, tP h ∧ h ∈ o.hosts ∧ x = newSessionHost t h) ∨
        (∃ h, h ∈ o.hosts ∧ x = newSessionHost s h) := by
      intro x
      rw [hrep x]
      constructor
      · rintro (hx | ⟨hx1, hx2⟩)
        · rcases List.mem_append.1 hx with hx | hx
          · rcases (hoch x).1 hx with hx' | ⟨h, hh1, hh2, rfl⟩
            · exact Or.inl hx'
            · exact Or.inr (Or.inl ⟨h, hh1, hh2, rfl⟩)
          · obtain ⟨h, hh1, hh2, rfl⟩ := hδ x hx
            exact Or.inr (Or.inr ⟨h, (hsvfree h).1 ⟨hh1, hh2⟩, rfl⟩)
        · rcases (hex1 x).1 hx1 with ⟨h, hh, rfl⟩ | ⟨h, hh, rfl⟩
          · rw [baseHostOf_newSessionHost t h hdt] at hx2
            have hhfree : SessFree s t h := hUB h (htP h hh)
            have hho : h ∈ o.hosts := by
              rcases List.mem_append.1 hx2 with hx2 | hx2
              · exact (hsvfree h).1 ⟨hx2, hhfree⟩
              · obtain ⟨h2, _, _, heq⟩ := hδ h hx2
                exact absurd (heq ▸ hhfree.1) (by simp [prefix_newSessionHost])
            exact Or.inr (Or.inl ⟨h, hh, hho, rfl⟩)
          · rw [baseHostOf_newSessionHost s h hds] at hx2
            have hhUB : h ∈ UB := by
              rcases hh with hh' | hh'
              · exact hSIn h hh'
              · exact hoUB h hh'
            have hhfree : SessFree s t h := hUB h hhUB
            have hho : h ∈ o.hosts := by
              rcases List.mem_append.1 hx2 with hx2 | hx2
              · exact (hsvfree h).1 ⟨hx2, hhfree⟩
              · obtain ⟨h2, _, _, heq⟩ := hδ h hx2
                exact absurd (heq ▸ hhfree.1) (by simp [prefix_newSessionHost])
            exact Or.inr (Or.inr ⟨h, hho, rfl⟩)
      · rintro (hx | ⟨h, hh1, hh2, rfl⟩ | ⟨h, hh, rfl⟩)
        · exact Or.inl (List.mem_append_left _ ((hoch x).2 (Or.inl hx)))
        · exact Or.inl (List.mem_append_left _ ((hoch _).2 (Or.inr ⟨h, hh1, hh2, rfl⟩)))
        · refine Or.inr ⟨(hex1 _).2 (Or.inr ⟨h, Or.inr hh, rfl⟩), ?_⟩
          rw [baseHostOf_newSessionHost s h hds]
          exact List.mem_append_left _ ((hoch h).2 (Or.inl hh))
    have hSIn1 : ∀ h, (SIn h ∨ h ∈ o.hosts) → h ∈ UB := by
      rintro h (hh | hh)
      · exact hSIn h hh
      · exact hoUB h hh
    obtain ⟨srest2, ex2, added2, hrestrun, hex2, hfarest⟩ :=
      ih srest (ex ++ δ) added1 tP (fun h => SIn h ∨ h ∈ o.hosts) htP hSIn1 hrest hex1
    refine ⟨⟨mutateServerRepair (ex ++ δ) (sv.hosts ++ δ)⟩ :: srest2, ex2, added2,
      ?_, ?_, ?_⟩
    · rw [mutateGatewayServers, mutateServer, hscanrun]
      simp only
      rw [hrestrun]
    · intro x
      rw [hex2 x]
      constructor
      · rintro (h | ⟨h, (hh | hh), rfl⟩)
        · exact Or.inl h
        · rcases hh with hh' | hh'
          · exact Or.inr ⟨h, Or.inl hh', rfl⟩
          · exact Or.inr ⟨h, Or.inr ⟨o, List.mem_cons_self _ _, hh'⟩, rfl⟩
        · obtain ⟨o2, ho2, hho2⟩ := hh
          exact Or.inr ⟨h, Or.inr ⟨o2, List.mem_cons_of_mem _ ho2, hho2⟩, rfl⟩
      · rintro (h | ⟨h, (hh | ⟨o2, ho2, hho2⟩), rfl⟩)
        · exact Or.inl h
        · exact Or.inr ⟨h, Or.inl (Or.inl hh), rfl⟩
        · rcases List.mem_cons.1 ho2 with rfl | ho2'
          · exact Or.inr ⟨h, Or.inl (Or.inr hho2), rfl⟩
          · exact Or.inr ⟨h, Or.inr ⟨o2, ho2', hho2⟩, rfl⟩
    · exact List.Forall₂.cons ⟨hoUB, hch2⟩ hfarest

/-- Two `Forall₂`s out of the same left list combine into a `Forall₂`
between the two right lists. -/
theorem forall₂_combine {α β γ : Type} {R : α → β → Prop} {S : α → γ → Prop}
    {T : β → γ → Prop} :
    ∀ {as : List α} {bs : List β} {cs : List γ},
      List.Forall₂ R as bs → List.Forall₂ S as cs →
      (∀ a b c, R a b → S a c → T b c) → List.Forall₂ T bs cs := by
  intro as
  induction as with
  | nil =>
    intro bs cs h1 h2 _
    rw [List.forall₂_nil_left_iff] at h1 h2
    subst h1
    subst h2
    exact List.Forall₂.nil
  | cons a arest ih =>
    intro bs cs h1 h2 hT
    rcases bs with _ | ⟨b, brest⟩
    · cases h1
    rcases cs with _ | ⟨c, crest⟩
    · cases h2
    rw [List.forall₂_cons] at h1 h2
    exact List.Forall₂.cons (hT a b c h1.1 h2.1) (ih h1.2 h2.2 hT)

/-- Composite of two ordered `mutateGateway` runs (`t` first, then `s`) on
an annotation-free gateway whose hosts are comma-free and carry neither
session prefix: membership in the final recorded list and in each final
server host list is given by the symmetric session-image formulas. -/
theorem mutateGateway_two_runs (s t : Str) (gw : Gateway)
    (hds : ('.') ∉ s) (hdt : ('.') ∉ t) (hst : s ≠ t)
    (hcs : (',') ∉ s) (hct : (',') ∉ t)
    (hann : gw.ikeHostsAnn = none)
    (hfree : ∀ sv ∈ gw.servers, ∀ h ∈ sv.hosts, SessFree s t h)
    (hcomma : ∀ sv ∈ gw.servers, ∀ h ∈ sv.hosts, (',') ∉ h) :
    (∀ x, x ∈ parseIkeHosts (mutateGateway s (mutateGateway t gw).1).1.ikeHostsAnn ↔
      (∃ o ∈ gw.servers, ∃ h ∈ o.hosts, x = newSessionHost t h) ∨
      (∃ o ∈ gw.servers, ∃ h ∈ o.hosts, x = newSessionHost s h)) ∧
    List.Forall₂ (fun o sv => ∀ x, x ∈ sv.hosts ↔ x ∈ o.hosts ∨
      (∃ h, h ∈ o.hosts ∧ x = newSessionHost t h) ∨
      (∃ h, h ∈ o.hosts ∧ x = newSessionHost s h)) gw.servers
      (mutateGateway s (mutateGateway t gw).1).1.servers := by
  obtain ⟨servers, ann⟩ := gw
  have hann' : ann = none := hann
  subst hann'
  have hfree' : ∀ sv ∈ servers, ∀ h ∈ sv.hosts, SessFree s t h := hfree
  have hcomma' : ∀ sv ∈ servers, ∀ h ∈ sv.hosts, (',') ∉ h := hcomma
  have hUBst : ∀ h ∈ servers.flatMap Server.hosts, SessFree s t h := by
    intro h hh
    rw [List.mem_flatMap] at hh
    obtain ⟨sv, hsv, hmem⟩ := hh
    exact hfree' sv hsv h hmem
  have hUBts : ∀ h ∈ servers.flatMap Server.hosts, SessFree t s h := by
    intro h hh
    exact ⟨(hUBst h hh).2, (hUBst h hh).1⟩
  have hUBcomma : ∀ h ∈ servers.flatMap Server.hosts, (',') ∉ h := by
    intro h hh
    rw [List.mem_flatMap] at hh
    obtain ⟨sv, hsv, hmem⟩ := hh
    exact hcomma' sv hsv h hmem
  -- first run: session t on the original gateway
  have hfadiag : List.Forall₂ (fun o sv =>
      (∀ h ∈ o.hosts, h ∈ servers.flatMap Server.hosts) ∧
      (∀ x, x ∈ sv.hosts ↔ x ∈ o.hosts ∨
        ∃ h, False ∧ h ∈ o.hosts ∧ x = newSessionHost s h)) servers servers := by
    rw [List.forall₂_same]
    intro sv hsv
    refine ⟨fun h hh => List.mem_flatMap.2 ⟨sv, hsv, hh⟩, ?_⟩
    intro x
    constructor
    · exact fun h => Or.inl h
    · rintro (h | ⟨h, hF, _, _⟩)
      · exact h
      · exact hF.elim
  obtain ⟨S1, E1, A1, hrun1, hexc1, hfa1⟩ :=
    mutateGatewayServers_mem t s hdt hds (Ne.symm hst) (servers.flatMap Server.hosts)
      hUBts servers servers [] [] (fun _ => False) (fun _ => False)
      (fun h hF => hF.elim) (fun h hF => hF.elim) hfadiag (fun x => by simp)
  have hg1 : mutateGateway t (Gateway.mk servers none) =
      ({ servers := S1, ikeHostsAnn := some (List.intercalate (str ",") E1) }, A1) := by
    simp only [mutateGateway]
    rw [show parseIkeHosts (Gateway.mk servers none).ikeHostsAnn = [] from rfl, hrun1]
  have hE1 : ∀ x, x ∈ E1 ↔ ∃ o ∈ servers, ∃ h ∈ o.hosts, x = newSessionHost t h := by
    intro x
    rw [hexc1 x]
    constructor
    · rintro (⟨h, hF, _⟩ | ⟨h, (hF | ⟨o, ho, hh⟩), rfl⟩)
      · exact hF.elim
      · exact hF.elim
      · exact ⟨o, ho, h, hh, rfl⟩
    · rintro ⟨o, ho, h, hh, rfl⟩
      exact Or.inr ⟨h, Or.inr ⟨o, ho, hh⟩, rfl⟩
  have hE1c : ∀ e ∈ E1, (',') ∉ e := by
    intro e he
    obtain ⟨o, ho, h, hh, rfl⟩ := (hE1 e).1 he
    exact comma_notMem_newSessionHost t h hct (hcomma' o ho h hh)
  have hE1ne : ∀ e ∈ E1, e ≠ [] := by
    intro e he
    obtain ⟨o, ho, h, hh, rfl⟩ := (hE1 e).1 he
    exact newSessionHost_ne_nil t h
  have hparse1 : parseIkeHosts (some (List.intercalate (str ",") E1)) = E1 :=
    parseIkeHosts_intercalate E1 hE1c hE1ne
  -- second run: session s on the mutated gateway
  have hfa1' : List.Forall₂ (fun o sv =>
      (∀ h ∈ o.hosts, h ∈ servers.flatMap Server.hosts) ∧
      (∀ x, x ∈ sv.hosts ↔ x ∈ o.hosts ∨
        ∃ h, h ∈ servers.flatMap Server.hosts ∧ h ∈ o.hosts ∧
          x = newSessionHost t h)) servers S1 := by
    refine List.Forall₂.imp ?_ hfa1
    rintro o sv ⟨hsub, hch⟩
    refine ⟨hsub, ?_⟩
    intro x
    rw [hch x]
    constructor
    · rintro (h | ⟨h, hF, _, _⟩ | ⟨h, hh, rfl⟩)
      · exact Or.inl h
      · exact hF.elim
      · exact Or.inr ⟨h, hsub h hh, hh, rfl⟩
    · rintro (h | ⟨h, _, hh, rfl⟩)
      · exact Or.inl h
      · exact Or.inr (Or.inr ⟨h, hh, rfl⟩)
  have hexE1 : ∀ x, x ∈ E1 ↔
      (∃ h, h ∈ servers.flatMap Server.hosts ∧ x = newSessionHost t h) ∨
      (∃ h, False ∧ x = newSessionHost s h) := by
    intro x
    rw [hE1 x]
    constructor
    · rintro ⟨o, ho, h, hh, rfl⟩
      exact Or.inl ⟨h, List.mem_flatMap.2 ⟨o, ho, hh⟩, rfl⟩
    · rintro (⟨h, hh, rfl⟩ | ⟨h, hF, _⟩)
      · obtain ⟨o, ho, hmem⟩ := List.mem_flatMap.1 hh
        exact ⟨o, ho, h, hmem, rfl⟩
      · exact hF.elim
  obtain ⟨S12, E12, A12, hrun2, hexc12, hfa12⟩ :=
    mutateGatewayServers_mem s t hds hdt hst (servers.flatMap Server.hosts)
      hUBst servers S1 E1 [] (fun h => h ∈ servers.flatMap Server.hosts)
      (fun _ => False) (fun h hh => hh) (fun h hF => hF.elim) hfa1' hexE1
  have hg12 : mutateGateway s (mutateGateway t (Gateway.mk servers none)).1 =
      ({ servers := S12, ikeHostsAnn := some (List.intercalate (str ",") E12) }, A12) := by
    rw [hg1]
    simp only [mutateGateway]
    rw [show parseIkeHosts (Gateway.mk S1
      (some (List.intercalate (str ",") E1))).ikeHostsAnn =
      parseIkeHosts (some (List.intercalate (str ",") E1)) from rfl]
    rw [hparse1, hrun2]
  have hE12 : ∀ x, x ∈ E12 ↔
      (∃ o ∈ servers, ∃ h ∈ o.hosts, x = newSessionHost t h) ∨
      (∃ o ∈ servers, ∃ h ∈ o.hosts, x = newSessionHost s h) := by
    intro x
    rw [hexc12 x]
    constructor
    · rintro (⟨h, hh, rfl⟩ | ⟨h, (hF | ⟨o, ho, hh⟩), rfl⟩)
      · obtain ⟨o, ho, hmem⟩ := List.mem_flatMap.1 hh
        exact Or.inl ⟨o, ho, h, hmem, rfl⟩
      · exact hF.elim
      · exact Or.inr ⟨o, ho, h, hh, rfl⟩
    · rintro (⟨o, ho, h, hh, rfl⟩ | ⟨o, ho, h, hh, rfl⟩)
      · exact Or.inl ⟨h, List.mem_flatMap.2 ⟨o, ho, hh⟩, rfl⟩
      · exact Or.inr ⟨h, Or.inr ⟨o, ho, hh⟩, rfl⟩
  have hE12c : ∀ e ∈ E12, (',') ∉ e := by
    intro e he
    rcases (hE12 e).1 he with ⟨o, ho, h, hh, rfl⟩ | ⟨o, ho, h, hh, rfl⟩
    · exact comma_notMem_newSessionHost t h hct (hcomma' o ho h hh)
    · exact comma_notMem_newSessionHost s h hcs (hcomma' o ho h hh)
  have hE12ne : ∀ e ∈ E12, e ≠ [] := by
    intro e he
    rcases (hE12 e).1 he with ⟨o, ho, h, hh, rfl⟩ | ⟨o, ho, h, hh, rfl⟩
    · exact newSessionHost_ne_nil t h
    · exact newSessionHost_ne_nil s h
  constructor
  · intro x
    rw [hg12]
    rw [show (Gateway.mk S12 (some (List.intercalate (str ",") E12)), A12).1.ikeHostsAnn =
      some (List.intercalate (str ",") E12) from rfl]
    rw [parseIkeHosts_intercalate E12 hE12c hE12ne]
    exact hE12 x
  · rw [hg12]
    rw [show (Gateway.mk S12 (some (List.intercalate (str ",") E12)), A12).1.servers =
      S12 from rfl]
    refine List.Forall₂.imp ?_ hfa12
    rintro o sv ⟨hsub, hch⟩
    intro x
    rw [hch x]
    constructor
    · rintro (h | ⟨h, _, hh, rfl⟩ | ⟨h, hh, rfl⟩)
      · exact Or.inl h
      · exact Or.inr (Or.inl ⟨h, hh, rfl⟩)
      · exact Or.inr (Or.inr ⟨h, hh, rfl⟩)
    · rintro (h | ⟨h, hh, rfl⟩ | ⟨h, hh, rfl⟩)
      · exact Or.inl h
      · exact Or.inr (Or.inl ⟨h, hsub h hh, hh, rfl⟩)
      · exact Or.inr (Or.inr ⟨h, hh, rfl⟩)

/-- C8 (amended): gateway mutation commutes across two distinct sessions
set-wise — per server and for the recorded `ike.hosts` list — provided the
session names are distinct, dot-free and comma-free, the gateway starts
with no `ike.hosts` annotation, and every server host is comma-free and
carries neither session prefix. Without the prefix-freedom the two orders
differ (counterexample: a host that itself looks like a session host of
the other session). -/
theorem C8_mutateGateway_commute (s1 s2 : Str) (gw : Gateway)
    (hne : s1 ≠ s2) (hd1 : ('.') ∉ s1) (hd2 : ('.') ∉ s2)
    (hc1 : (',') ∉ s1) (hc2 : (',') ∉ s2)
    (hann : gw.ikeHostsAnn = none)
    (hfree : ∀ sv ∈ gw.servers, ∀ h ∈ sv.hosts, SessFree s1 s2 h)
    (hcomma : ∀ sv ∈ gw.servers, ∀ h ∈ sv.hosts, (',') ∉ h) :
    List.Forall₂ (fun a b => ∀ x, x ∈ a.hosts ↔ x ∈ b.hosts)
      (mutateGateway s2 (mutateGateway s1 gw).1).1.servers
      (mutateGateway s1 (mutateGateway s2 gw).1).1.servers ∧
    ∀ x, x ∈ parseIkeHosts (mutateGateway s2 (mutateGateway s1 gw).1).1.ikeHostsAnn ↔
      x ∈ parseIkeHosts (mutateGateway s1 (mutateGateway s2 gw).1).1.ikeHostsAnn := by
  have hfree21 : ∀ sv ∈ gw.servers, ∀ h ∈ sv.hosts, SessFree s2 s1 h := by
    intro sv hsv h hh
    exact ⟨(hfree sv hsv h hh).2, (hfree sv hsv h hh).1⟩
  obtain ⟨hannA, hfaA⟩ := mutateGateway_two_runs s2 s1 gw hd2 hd1 (Ne.symm hne) hc2 hc1
    hann hfree21 hcomma
  obtain ⟨hannB, hfaB⟩ := mutateGateway_two_runs s1 s2 gw hd1 hd2 hne hc1 hc2
    hann hfree hcomma
  constructor
  · refine forall₂_combine hfaA hfaB ?_
    intro o a b hA hB x
    rw [hA x, hB x]
    constructor
    · rintro (h | h | h)
      · exact Or.inl h
      · exact Or.inr (Or.inr h)
      · exact Or.inr (Or.inl h)
    · rintro (h | h | h)
      · exact Or.inl h
      · exact Or.inr (Or.inr h)
      · exact Or.inr (Or.inl h)
  · intro x
    rw [hannA x, hannB x]
    exact or_comm

/-- C8 (counterexample): on a gateway already containing a host of the
shape `a.h`, mutating for session `b` then `a` and for session `a` then
`b` yield different host sets on the (single) server: `b.a.h` is produced
by the first order only. -/
theorem C8_counterexample :
    (str "b.a.h") ∈
      ((mutateGateway (str "a") (mutateGateway (str "b") gwC8).1).1.servers.getD 0
        default).hosts ∧
    ¬ (str "b.a.h") ∈
      ((mutateGateway (str "b") (mutateGateway (str "a") gwC8).1).1.servers.getD 0
        default).hosts := by
  decide

/-- Witness for C8 at a clean two-server gateway and sessions `u`, `v`. -/
theorem C8_witness :
    ((str "u" : Str) ≠ str "v" ∧ gwC8w.ikeHostsAnn = none) ∧
    (List.Forall₂ (fun a b => ∀ x, x ∈ a.hosts ↔ x ∈ b.hosts)
      (mutateGateway (str "v") (mutateGateway (str "u") gwC8w).1).1.servers
      (mutateGateway (str "u") (mutateGateway (str "v") gwC8w).1).1.servers ∧
    ∀ x, x ∈ parseIkeHosts
        (mutateGateway (str "v") (mutateGateway (str "u") gwC8w).1).1.ikeHostsAnn ↔
      x ∈ parseIkeHosts
        (mutateGateway (str "u") (mutateGateway (str "v") gwC8w).1).1.ikeHostsAnn) :=
  ⟨⟨by decide, rfl⟩, C8_mutateGateway_commute (str "u") (str "v") gwC8w (by decide)
    (by decide) (by decide) (by decide) (by decide) rfl (by decide) (by decide)⟩

/-- Witness for C3 at a rule with a single non-matching destination. -/
theorem C3_witness :
    ruleMNM.route.any (findRoutesEntry hostReviews (str "v1")) = true ∧
    ((ruleMNM.route.filter (fun r => !keepRoute hostReviews (str "v1") r)).length ≤ 1) ∧
    ∃ rule, simplifyTargetRoute ruleMNM hostReviews (str "v1") (str "v1-demo") cRoute
        vsC3 = some { vsC3 with http := rule :: vsC3.http } ∧
      rule.route = (ruleMNM.route.filter (keepRoute hostReviews (str "v1"))).map
        (fun r => { r with destination := r.destination.map (fun d => { d with subset := str "v1-demo" }), weight := 0 }) ∧
      (∀ r ∈ rule.route, ∃ d, r.destination = some d ∧ hostReviews d.host = true ∧
        d.subset = str "v1-demo" ∧ r.weight = 0) ∧
      rule.mirror = none ∧ rule.redirect = none :=
  ⟨by decide, by decide,
   C3_simplifyTargetRoute_amended hostReviews (str "v1") (str "v1-demo") cRoute
     ruleMNM vsC3 (by decide) (by decide)⟩

end Spec2Proof
